import Mathlib

/-!
Shallow embedding of the memory-matching puzzle core from
`round_1/src/game.ts` and `round_1/src/index.ts`, together with proofs of
the specification's claims about it.

The embedding keeps the source structure: the mutable module-level `state`
becomes an explicit `GameState`, DOM card elements become a `visual` /
`feedback` projection, and `setTimeout` callbacks become an explicit queue
of pending `Timer`s fired in deadline order by `advance`.  The shuffle
primitive is threaded as a function parameter; theorems that depend on it
assume only that it returns a permutation of its input.
-/

namespace Vibelympics

/-- The three difficulty identifiers (`type DifficultyKey`). -/
inductive DifficultyKey where
  | chill
  | zest
  | inferno
deriving DecidableEq, Repr

/-- Configuration record for a difficulty (`type DifficultyConfig`). -/
structure DifficultyConfig where
  key : DifficultyKey
  emoji : String
  pairs : Nat
  cols : Nat
  cardAura : String
  pool : List String
deriving DecidableEq, Repr

/-- The static difficulty table (`const difficulties`). -/
def difficulties : DifficultyKey → DifficultyConfig
  | .chill =>
    { key := .chill, emoji := "🙂", pairs := 6, cols := 4,
      cardAura := "from-yellow-200/50 via-amber-200/40 to-orange-200/40",
      pool := ["🍉", "🍋", "🍇", "🍊", "🍓", "🍍", "🥝", "🍒", "🍑", "🍈"] }
  | .zest =>
    { key := .zest, emoji := "🥶", pairs := 8, cols := 4,
      cardAura := "from-orange-400/40 via-amber-500/35 to-rose-400/30",
      pool := ["💎", "🔷", "🔹", "🔵", "🌀", "💠", "🔮", "🪬", "🔭", "🧿"] }
  | .inferno =>
    { key := .inferno, emoji := "💀", pairs := 12, cols := 6,
      cardAura := "from-rose-700/40 via-red-700/35 to-fuchsia-700/30",
      pool := ["🔵", "🔹", "🔘", "⚫️", "⚪️", "🔴", "🟠", "🟡", "🟢", "🟣", "🔷", "🔶",
               "🟦", "🟥", "🟧", "🟪", "🔳", "🔲", "◼️", "◻️", "▪️", "▫️", "◽️", "◾️"] }

/-- Per-difficulty best times (`bestTimes: Partial Record`), with the three
possible keys spelled out so that equality stays decidable. -/
structure BestTimes where
  chill : Option Nat := none
  zest : Option Nat := none
  inferno : Option Nat := none
deriving DecidableEq, Repr

/-- Lookup `bestTimes[key]`. -/
def BestTimes.get (b : BestTimes) : DifficultyKey → Option Nat
  | .chill => b.chill
  | .zest => b.zest
  | .inferno => b.inferno

/-- Assignment `bestTimes[key] = v`. -/
def BestTimes.set (b : BestTimes) (k : DifficultyKey) (v : Nat) : BestTimes :=
  match k with
  | .chill => { b with chill := some v }
  | .zest => { b with zest := some v }
  | .inferno => { b with inferno := some v }

/-- The mutable session record (`type GameState`).  Time is in integral
milliseconds. -/
structure GameState where
  difficulty : DifficultyKey
  deck : List String
  matched : List Nat
  moves : Nat
  elapsedMs : Nat
  runningSince : Option Nat
  bestTimes : BestTimes
  flipped : List Nat
  locked : Bool
  victory : Bool
deriving DecidableEq, Repr

/-- `const FLIP_DURATION = 650`. -/
def FLIP_DURATION : Nat := 650

/-- `const MISMATCH_RESET_DELAY = FLIP_DURATION + 900`. -/
def MISMATCH_RESET_DELAY : Nat := FLIP_DURATION + 900

/-- `const WAIT_AFTER_MATCH = FLIP_DURATION + 300`. -/
def WAIT_AFTER_MATCH : Nat := FLIP_DURATION + 300

/-- `buildDeck`: shuffle the pool, keep the first `pairs` symbols, duplicate
each, shuffle the result.  The shuffle primitive is a parameter. -/
def buildDeck (shuf : List String → List String) (config : DifficultyConfig) : List String :=
  let picks := (shuf config.pool).take config.pairs
  shuf (picks.flatMap (fun symbol => [symbol, symbol]))

/-- `const defaultDifficulty = 'chill'`. -/
def defaultDifficulty : DifficultyKey := .chill

/-- `createInitialState`. -/
def createInitialState (shuf : List String → List String) : GameState :=
  { difficulty := defaultDifficulty,
    deck := buildDeck shuf (difficulties defaultDifficulty),
    matched := [], moves := 0, elapsedMs := 0, runningSince := none,
    bestTimes := {}, flipped := [], locked := false, victory := false }

/-- Visual state of one card (`type CardState`). -/
inductive CardState where
  | idle
  | flipped
  | matched
deriving DecidableEq, Repr

/-- Transient feedback marker moods (`'good' | 'bad'`). -/
inductive Mood where
  | good
  | bad
deriving DecidableEq, Repr

/-- Effect carried by a pending `setTimeout` callback. -/
inductive Eff where
  | mismatchReset (idxs : List Nat)
  | matchVisual (a b : Nat)
  | flashFeedback (idxs : List Nat) (mood : Mood) (clearDelay : Nat)
  | clearFeedback (idxs : List Nat) (mood : Mood)
deriving DecidableEq, Repr

/-- A pending timer: deadline plus the callback's effect. -/
structure Timer where
  fireAt : Nat
  eff : Eff
deriving DecidableEq, Repr

/-- The whole observable world: logical state, per-card visual state
(`card.dataset.state`), per-card feedback marker (`card.dataset.feedback`),
and the queue of pending timers. -/
structure World where
  game : GameState
  visual : List CardState
  feedback : List (Option Mood)
  timers : List Timer
deriving DecidableEq, Repr

/-- `stopTimer` (the logical part: freeze `elapsedMs`, clear the anchor). -/
def stopTimer (now : Nat) (g : GameState) : GameState :=
  let g1 := match g.runningSince with
    | some r => { g with elapsedMs := now - r }
    | none => g
  { g1 with runningSince := none }

/-- JS falsy test on an optional number (`!previousBest`): `undefined` and
`0` are both falsy. -/
def jsFalsyNum : Option Nat → Bool
  | none => true
  | some n => n == 0

/-- `handleWin`: set victory, stop the clock, conditionally record a best. -/
def handleWin (now : Nat) (g : GameState) : GameState :=
  let g1 := stopTimer now { g with victory := true }
  let duration := g1.elapsedMs
  let previousBest := g1.bestTimes.get g1.difficulty
  if jsFalsyNum previousBest || (match previousBest with
      | some p => decide (duration < p)
      | none => false) then
    { g1 with bestTimes := g1.bestTimes.set g1.difficulty duration }
  else g1

/-- `checkVictory`. -/
def checkVictory (now : Nat) (g : GameState) : GameState :=
  if g.matched.length = g.deck.length ∧ g.victory = false then handleWin now g else g

/-- `handleFlip(index)` together with its DOM writes and the timers it
queues; `now` is the wall-clock instant of the click. -/
def revealW (now index : Nat) (w : World) : World :=
  let g := w.game
  if g.locked || g.victory then w
  else if decide (index ∈ g.flipped) || decide (index ∈ g.matched) then w
  else
    let g1 := if g.runningSince.isNone then { g with runningSince := some now, elapsedMs := 0 } else g
    let g2 := { g1 with flipped := g1.flipped ++ [index] }
    let v2 := w.visual.set index CardState.flipped
    match g2.flipped with
    | [first, second] =>
      let g3 := { g2 with moves := g2.moves + 1 }
      match g3.deck[first]?, g3.deck[second]? with
      | some firstSymbol, some secondSymbol =>
        if firstSymbol.isEmpty || secondSymbol.isEmpty then
          { w with game := { g3 with flipped := [], locked := false }, visual := v2 }
        else if firstSymbol = secondSymbol then
          let g4 := { g3 with matched := g3.matched ++ [first, second], flipped := [] }
          { w with
            game := checkVictory now g4
            visual := v2
            timers := w.timers ++
              [⟨now + 250, .matchVisual first second⟩,
               ⟨now + FLIP_DURATION, .flashFeedback [first, second] .good 2000⟩] }
        else
          { w with
            game := { g3 with locked := true }
            visual := v2
            timers := w.timers ++
              [⟨now + FLIP_DURATION, .flashFeedback [first, second] .bad 800⟩,
               ⟨now + MISMATCH_RESET_DELAY, .mismatchReset [first, second]⟩] }
      | _, _ =>
        { w with game := { g3 with flipped := [], locked := false }, visual := v2 }
    | _ => { w with game := g2, visual := v2 }

/-- `softReset(level)`: rebuild the deck, clear every per-session field,
rebuild the board.  Pending timers are NOT cancelled by the source. -/
def softResetW (shuf : List String → List String) (level : DifficultyKey) (w : World) : World :=
  let config := difficulties level
  let deck := buildDeck shuf config
  { game :=
      { difficulty := level, deck := deck, matched := [], moves := 0,
        elapsedMs := 0, runningSince := none, bestTimes := w.game.bestTimes,
        flipped := [], locked := false, victory := false },
    visual := List.replicate deck.length CardState.idle,
    feedback := List.replicate deck.length none,
    timers := w.timers }

/-- Run one fired timer callback.  `tm.fireAt` is the instant the callback
runs, used as the base for any timer it schedules in turn. -/
def applyTimer (tm : Timer) (w : World) : World :=
  match tm.eff with
  | .mismatchReset idxs =>
    { w with
      visual := idxs.foldl (fun v i => v.set i CardState.idle) w.visual,
      feedback := idxs.foldl (fun f i => f.set i none) w.feedback,
      game := { w.game with flipped := [], locked := false } }
  | .matchVisual a b =>
    { w with visual := (w.visual.set a CardState.matched).set b CardState.matched }
  | .flashFeedback idxs mood clearDelay =>
    { w with
      feedback := idxs.foldl (fun f i => f.set i (some mood)) w.feedback,
      timers := w.timers ++ [⟨tm.fireAt + clearDelay, .clearFeedback idxs mood⟩] }
  | .clearFeedback idxs mood =>
    { w with
      feedback := idxs.foldl
        (fun f i =>
          if mood = Mood.good ∧ w.visual[i]? = some CardState.matched then f
          else f.set i none) w.feedback }

/-- Pop the pending timer with the smallest deadline among those due at
time `t` (earliest queue position breaking ties), mirroring the order the
event loop runs expired callbacks. -/
def removeEarliestDue (t : Nat) : List Timer → Option (Timer × List Timer)
  | [] => none
  | tm :: rest =>
    if tm.fireAt ≤ t then
      match removeEarliestDue t rest with
      | some (tm', rest') =>
        if tm'.fireAt < tm.fireAt then some (tm', tm :: rest') else some (tm, rest)
      | none => some (tm, rest)
    else
      match removeEarliestDue t rest with
      | some (tm', rest') => some (tm', tm :: rest')
      | none => none

/-- Fire due timers one at a time, at most `fuel` of them. -/
def runTimers (t : Nat) : Nat → World → World
  | 0, w => w
  | fuel + 1, w =>
    match removeEarliestDue t w.timers with
    | none => w
    | some (tm, rest) => runTimers t fuel (applyTimer tm { w with timers := rest })

/-- Weight of a timer for the fuel bound: a feedback flash spawns one more
timer when it fires, every other callback only removes itself. -/
def timerWeight (tm : Timer) : Nat :=
  match tm.eff with
  | .flashFeedback _ _ _ => 2
  | _ => 1

/-- Total weight of a queue. -/
def queueWeight (timers : List Timer) : Nat :=
  (timers.map timerWeight).sum

/-- Let wall-clock time advance to `t`: every pending timer whose deadline
has passed fires (including ones spawned while firing). -/
def advance (t : Nat) (w : World) : World :=
  runTimers t (queueWeight w.timers + 1) w

/-- The freshly loaded page: initial state plus a freshly rendered board. -/
def initialWorld (shuf : List String → List String) : World :=
  let g := createInitialState shuf
  { game := g,
    visual := List.replicate g.deck.length CardState.idle,
    feedback := List.replicate g.deck.length none,
    timers := [] }

/-- An externally observable operation on the world. -/
inductive Event where
  | reveal (now index : Nat)
  | reset (level : DifficultyKey)
  | advanceTo (now : Nat)
deriving DecidableEq, Repr

/-- Interpret one event. -/
def stepE (shuf : List String → List String) (w : World) : Event → World
  | .reveal now index => revealW now index w
  | .reset level => softResetW shuf level w
  | .advanceTo now => advance now w

/-- Interpret a list of events left to right. -/
def runE (shuf : List String → List String) (w : World) : List Event → World
  | [] => w
  | e :: es => runE shuf (stepE shuf w e) es

/-- Insert an index into the bucket for its symbol, preserving the JS `Map`
insertion order: append to an existing group, or add a new bucket at the
end. -/
def addToBuckets (bs : List (String × List Nat)) (s : String) (i : Nat) :
    List (String × List Nat) :=
  match bs with
  | [] => [(s, [i])]
  | (k, group) :: rest =>
    if k = s then (k, group ++ [i]) :: rest else (k, group) :: addToBuckets rest s i

/-- The `buckets` map of `pickNextPair`: unmatched deck positions grouped by
symbol, groups and keys in first-occurrence order. -/
def buildBuckets (deck : List String) (matched : List Nat) : List (String × List Nat) :=
  (deck.enum.filter (fun p => decide (p.1 ∉ matched))).foldl
    (fun bs p => addToBuckets bs p.2 p.1) []

/-- `pickNextPair`: the first bucket with at least two unmatched positions,
returning its first two indices. -/
def pickNextPair (g : GameState) : Option (Nat × Nat) :=
  match (buildBuckets g.deck g.matched).find? (fun b => 2 ≤ b.2.length) with
  | some (_, i :: j :: _) => some (i, j)
  | _ => none

/-- `flipPairAutomatically`: click the first card, wait `FLIP_DURATION + 120`,
click the second, wait `WAIT_AFTER_MATCH`.  Clicks are skipped when either
card element is missing.  Waiting lets due timers fire. -/
def flipPairW (now first second : Nat) (w : World) : World :=
  if first < w.visual.length && second < w.visual.length then
    let w1 := revealW now first w
    let w2 := advance (now + FLIP_DURATION + 120) w1
    let w3 := revealW (now + FLIP_DURATION + 120) second w2
    advance (now + FLIP_DURATION + 120 + WAIT_AFTER_MATCH) w3
  else w

/-- The body of the secret solver's `while` loop.  `fuel` bounds the
recursion depth of the embedding; the source's own bound is the `guard`
counter, which only advances on pair-flip iterations. -/
def solverLoop : Nat → Nat → Nat → World → World
  | 0, _, _, w => w
  | fuel + 1, guard, now, w =>
    if w.game.victory then w
    else if 200 ≤ guard then w
    else if w.game.locked then
      solverLoop fuel guard (now + FLIP_DURATION) (advance (now + FLIP_DURATION) w)
    else
      match pickNextPair w.game with
      | none => w
      | some (first, second) =>
        if first < w.visual.length && second < w.visual.length then
          let w1 := revealW now first w
          let w2 := advance (now + FLIP_DURATION + 120) w1
          let w3 := revealW (now + FLIP_DURATION + 120) second w2
          let w4 := advance (now + FLIP_DURATION + 120 + WAIT_AFTER_MATCH) w3
          solverLoop fuel (guard + 1) (now + FLIP_DURATION + 120 + WAIT_AFTER_MATCH) w4
        else
          solverLoop fuel (guard + 1) now w

/-- `window.secretSolvePuzzle`: run the solver loop from time `now`. -/
def secretSolvePuzzle (now : Nat) (w : World) : World :=
  if w.game.victory then w else solverLoop 300 0 now w

/-! ### Deck construction lemmas -/

theorem flatMap_pair_length (l : List String) :
    (l.flatMap (fun symbol => [symbol, symbol])).length = 2 * l.length := by
  induction l with
  | nil => simp
  | cons a t ih => simp [ih]; omega

theorem flatMap_pair_count (l : List String) (a : String) :
    (l.flatMap (fun symbol => [symbol, symbol])).count a = 2 * l.count a := by
  induction l with
  | nil => simp
  | cons b t ih =>
    by_cases hab : a = b
    · subst hab; simp [List.count_cons, ih]; omega
    · simp [List.count_cons, hab, ih, Ne.symm hab]

theorem buildDeck_length (shuf : List String → List String)
    (hperm : ∀ l, (shuf l).Perm l) (config : DifficultyConfig)
    (hp : config.pairs ≤ config.pool.length) :
    (buildDeck shuf config).length = 2 * config.pairs := by
  unfold buildDeck
  rw [(hperm _).length_eq, flatMap_pair_length, List.length_take,
    (hperm _).length_eq, Nat.min_eq_left hp]

theorem buildDeck_mem_pool (shuf : List String → List String)
    (hperm : ∀ l, (shuf l).Perm l) (config : DifficultyConfig)
    (s : String) (hs : s ∈ buildDeck shuf config) : s ∈ config.pool := by
  unfold buildDeck at hs
  rw [(hperm _).mem_iff, List.mem_flatMap] at hs
  obtain ⟨t, ht, hst⟩ := hs
  simp only [List.mem_cons, List.not_mem_nil, or_false, or_self] at hst
  subst hst
  exact (hperm _).mem_iff.mp (List.take_subset _ _ ht)

theorem buildDeck_count_two (shuf : List String → List String)
    (hperm : ∀ l, (shuf l).Perm l) (config : DifficultyConfig)
    (hnd : config.pool.Nodup) (s : String) (hs : s ∈ buildDeck shuf config) :
    (buildDeck shuf config).count s = 2 := by
  unfold buildDeck at hs ⊢
  rw [(hperm _).count_eq, flatMap_pair_count]
  rw [(hperm _).mem_iff, List.mem_flatMap] at hs
  obtain ⟨t, ht, hst⟩ := hs
  simp only [List.mem_cons, List.not_mem_nil, or_false, or_self] at hst
  subst hst
  have hnds : ((shuf config.pool).take config.pairs).Nodup :=
    ((List.take_sublist _ _).nodup ((hperm config.pool).nodup_iff.mpr hnd))
  have h1 : ((shuf config.pool).take config.pairs).count s ≤ 1 :=
    List.nodup_iff_count_le_one.mp hnds s
  have h2 : 0 < ((shuf config.pool).take config.pairs).count s :=
    List.count_pos_iff.mpr ht
  omega

/-- Claim C3: for every difficulty configuration with a duplicate-free pool of
at least `pairs` symbols, and any shuffle primitive that permutes its input,
`buildDeck` returns a deck of length `2 * pairs` in which every symbol that
occurs occurs exactly twice. -/
theorem deckFactory_build_paired (shuf : List String → List String)
    (hperm : ∀ l, (shuf l).Perm l) (config : DifficultyConfig)
    (hnd : config.pool.Nodup) (hp : config.pairs ≤ config.pool.length) :
    (buildDeck shuf config).length = 2 * config.pairs ∧
    ∀ s ∈ buildDeck shuf config, (buildDeck shuf config).count s = 2 :=
  ⟨buildDeck_length shuf hperm config hp,
   fun s hs => buildDeck_count_two shuf hperm config hnd s hs⟩

/-- Witness for C3: the identity shuffle on the `chill` configuration. -/
theorem deckFactory_build_paired_witness :
    (buildDeck id (difficulties .chill)).length = 2 * (difficulties .chill).pairs ∧
    ∀ s ∈ buildDeck id (difficulties .chill),
      (buildDeck id (difficulties .chill)).count s = 2 :=
  deckFactory_build_paired id (fun l => List.Perm.refl l) (difficulties .chill)
    (by decide) (by decide)

/-! ### Characterization of `handleFlip` branch by branch -/

/-- JS falsy test on an optional string (`!symbol`): `undefined` and the
empty string are falsy. -/
def jsFalsyStr : Option String → Bool
  | none => true
  | some s => s.isEmpty

/-- The silent-rejection condition of `handleFlip`. -/
def rejectedFlip (index : Nat) (g : GameState) : Prop :=
  g.locked = true ∨ g.victory = true ∨ index ∈ g.flipped ∨ index ∈ g.matched

instance (index : Nat) (g : GameState) : Decidable (rejectedFlip index g) := by
  unfold rejectedFlip; infer_instance

theorem revealW_rejected (now index : Nat) (w : World)
    (h : rejectedFlip index w.game) : revealW now index w = w := by
  unfold revealW
  rcases h with h | h | h | h
  · simp [h]
  · simp [h]
  · by_cases hl : (w.game.locked || w.game.victory) = true
    · simp [hl]
    · simp [hl, h]
  · by_cases hl : (w.game.locked || w.game.victory) = true
    · simp [hl]
    · simp [hl, h]

theorem revealW_first (now index : Nat) (w : World)
    (hl : w.game.locked = false) (hv : w.game.victory = false)
    (hm : index ∉ w.game.matched) (hf : w.game.flipped = []) :
    revealW now index w =
      { w with
        game := { w.game with
          runningSince := some (w.game.runningSince.getD now)
          elapsedMs := if w.game.runningSince.isNone then 0 else w.game.elapsedMs
          flipped := [index] }
        visual := w.visual.set index CardState.flipped } := by
  rcases hrs : w.game.runningSince with _ | r <;>
    simp [revealW, hl, hv, hm, hf, hrs]

theorem revealW_second_blank (now index a : Nat) (w : World)
    (hl : w.game.locked = false) (hv : w.game.victory = false)
    (hm : index ∉ w.game.matched) (hf : w.game.flipped = [a]) (hne : index ≠ a)
    (hblank : (jsFalsyStr w.game.deck[a]? || jsFalsyStr w.game.deck[index]?) = true) :
    revealW now index w =
      { w with
        game := { w.game with
          runningSince := some (w.game.runningSince.getD now)
          elapsedMs := if w.game.runningSince.isNone then 0 else w.game.elapsedMs
          moves := w.game.moves + 1
          flipped := []
          locked := false }
        visual := w.visual.set index CardState.flipped } := by
  rcases hda : w.game.deck[a]? with _ | sa <;>
    rcases hdi : w.game.deck[index]? with _ | si <;>
    simp only [hda, hdi, jsFalsyStr, Bool.or_eq_true] at hblank <;>
    rcases hrs : w.game.runningSince with _ | r <;>
    simp [revealW, hl, hv, hm, hf, hne, hrs, hda, hdi, hblank]

theorem revealW_second_match (now index a : Nat) (s : String) (w : World)
    (hl : w.game.locked = false) (hv : w.game.victory = false)
    (hm : index ∉ w.game.matched) (hf : w.game.flipped = [a]) (hne : index ≠ a)
    (ha : w.game.deck[a]? = some s) (hi : w.game.deck[index]? = some s)
    (hs : s.isEmpty = false) :
    revealW now index w =
      { w with
        game := checkVictory now
          { w.game with
            runningSince := some (w.game.runningSince.getD now)
            elapsedMs := if w.game.runningSince.isNone then 0 else w.game.elapsedMs
            moves := w.game.moves + 1
            matched := w.game.matched ++ [a, index]
            flipped := [] }
        visual := w.visual.set index CardState.flipped
        timers := w.timers ++
          [⟨now + 250, .matchVisual a index⟩,
           ⟨now + FLIP_DURATION, .flashFeedback [a, index] .good 2000⟩] } := by
  rcases hrs : w.game.runningSince with _ | r <;>
    simp [revealW, hl, hv, hm, hf, hne, hrs, ha, hi, hs]

theorem revealW_second_mismatch (now index a : Nat) (s s2 : String) (w : World)
    (hl : w.game.locked = false) (hv : w.game.victory = false)
    (hm : index ∉ w.game.matched) (hf : w.game.flipped = [a]) (hne : index ≠ a)
    (ha : w.game.deck[a]? = some s) (hi : w.game.deck[index]? = some s2)
    (hs : s.isEmpty = false) (hs2 : s2.isEmpty = false) (hdiff : s ≠ s2) :
    revealW now index w =
      { w with
        game := { w.game with
          runningSince := some (w.game.runningSince.getD now)
          elapsedMs := if w.game.runningSince.isNone then 0 else w.game.elapsedMs
          moves := w.game.moves + 1
          flipped := [a, index]
          locked := true }
        visual := w.visual.set index CardState.flipped
        timers := w.timers ++
          [⟨now + FLIP_DURATION, .flashFeedback [a, index] .bad 800⟩,
           ⟨now + MISMATCH_RESET_DELAY, .mismatchReset [a, index]⟩] } := by
  rcases hrs : w.game.runningSince with _ | r <;>
    simp [revealW, hl, hv, hm, hf, hne, hrs, ha, hi, hs, hs2, hdiff]

/-! ### Component lemmas for the win path -/

@[simp] theorem handleWin_difficulty (now : Nat) (g : GameState) :
    (handleWin now g).difficulty = g.difficulty := by
  unfold handleWin stopTimer
  rcases g.runningSince with _ | r <;> dsimp <;> split <;> rfl

@[simp] theorem handleWin_deck (now : Nat) (g : GameState) :
    (handleWin now g).deck = g.deck := by
  unfold handleWin stopTimer
  rcases g.runningSince with _ | r <;> dsimp <;> split <;> rfl

@[simp] theorem handleWin_matched (now : Nat) (g : GameState) :
    (handleWin now g).matched = g.matched := by
  unfold handleWin stopTimer
  rcases g.runningSince with _ | r <;> dsimp <;> split <;> rfl

@[simp] theorem handleWin_moves (now : Nat) (g : GameState) :
    (handleWin now g).moves = g.moves := by
  unfold handleWin stopTimer
  rcases g.runningSince with _ | r <;> dsimp <;> split <;> rfl

@[simp] theorem handleWin_flipped (now : Nat) (g : GameState) :
    (handleWin now g).flipped = g.flipped := by
  unfold handleWin stopTimer
  rcases g.runningSince with _ | r <;> dsimp <;> split <;> rfl

@[simp] theorem handleWin_locked (now : Nat) (g : GameState) :
    (handleWin now g).locked = g.locked := by
  unfold handleWin stopTimer
  rcases g.runningSince with _ | r <;> dsimp <;> split <;> rfl

@[simp] theorem handleWin_victory (now : Nat) (g : GameState) :
    (handleWin now g).victory = true := by
  unfold handleWin stopTimer
  rcases g.runningSince with _ | r <;> dsimp <;> split <;> rfl

@[simp] theorem checkVictory_difficulty (now : Nat) (g : GameState) :
    (checkVictory now g).difficulty = g.difficulty := by
  unfold checkVictory; split <;> simp

@[simp] theorem checkVictory_deck (now : Nat) (g : GameState) :
    (checkVictory now g).deck = g.deck := by
  unfold checkVictory; split <;> simp

@[simp] theorem checkVictory_matched (now : Nat) (g : GameState) :
    (checkVictory now g).matched = g.matched := by
  unfold checkVictory; split <;> simp

@[simp] theorem checkVictory_moves (now : Nat) (g : GameState) :
    (checkVictory now g).moves = g.moves := by
  unfold checkVictory; split <;> simp

@[simp] theorem checkVictory_flipped (now : Nat) (g : GameState) :
    (checkVictory now g).flipped = g.flipped := by
  unfold checkVictory; split <;> simp

@[simp] theorem checkVictory_locked (now : Nat) (g : GameState) :
    (checkVictory now g).locked = g.locked := by
  unfold checkVictory; split <;> simp

theorem checkVictory_victory (now : Nat) (g : GameState) :
    (checkVictory now g).victory =
      (g.victory || decide (g.matched.length = g.deck.length)) := by
  unfold checkVictory
  split
  · next h => simp [h.1]
  · next h =>
    rcases hv : g.victory
    · have hne : ¬ g.matched.length = g.deck.length := fun hc => h ⟨hc, hv⟩
      simp [hne]
    · simp

/-! ### Claim C4: silent rejection leaves everything unchanged -/

/-- Claim C4: a reveal made while locked, or after victory, or of an index
already buffered or already matched, returns the world — and so the deck,
matched set, flip buffer, moves, locked, victory, timer fields and best
times — entirely unchanged. -/
theorem reveal_rejected_is_noop (now index : Nat) (w : World)
    (h : w.game.locked = true ∨ w.game.victory = true ∨
         index ∈ w.game.flipped ∨ index ∈ w.game.matched) :
    revealW now index w = w :=
  revealW_rejected now index w h

/-- Witness for C4: revealing while locked after a concrete mismatch. -/
theorem reveal_rejected_is_noop_witness :
    revealW 2000 4 (revealW 0 2 (revealW 0 0 (initialWorld id))) =
      revealW 0 2 (revealW 0 0 (initialWorld id)) :=
  reveal_rejected_is_noop 2000 4 _ (Or.inl (by decide))

/-! ### Claim C5: the moves counter counts completed two-card turns -/

theorem revealW_second_moves (now index a : Nat) (w : World)
    (hl : w.game.locked = false) (hv : w.game.victory = false)
    (hm : index ∉ w.game.matched) (hf : w.game.flipped = [a]) (hne : index ≠ a) :
    (revealW now index w).game.moves = w.game.moves + 1 := by
  rcases hda : w.game.deck[a]? with _ | sa <;>
    rcases hdi : w.game.deck[index]? with _ | si
  · rw [revealW_second_blank now index a w hl hv hm hf hne (by simp [jsFalsyStr, hda])]
  · rw [revealW_second_blank now index a w hl hv hm hf hne (by simp [jsFalsyStr, hda])]
  · rw [revealW_second_blank now index a w hl hv hm hf hne (by simp [jsFalsyStr, hdi])]
  · by_cases hea : sa.isEmpty = true
    · rw [revealW_second_blank now index a w hl hv hm hf hne (by simp [jsFalsyStr, hda, hea])]
    · by_cases hei : si.isEmpty = true
      · rw [revealW_second_blank now index a w hl hv hm hf hne (by simp [jsFalsyStr, hdi, hei])]
      · by_cases heq : sa = si
        · subst heq
          rw [revealW_second_match now index a sa w hl hv hm hf hne hda hdi
            (Bool.not_eq_true _ ▸ hea)]
          simp
        · rw [revealW_second_mismatch now index a sa si w hl hv hm hf hne hda hdi
            (Bool.not_eq_true _ ▸ hea) (Bool.not_eq_true _ ▸ hei) heq]

/-- Claim C5: one reveal increments `moves` by exactly 1 when (and only
when) it is accepted and brings the flip buffer to size 2 — whatever the
outcome of the turn — and leaves `moves` unchanged on a first reveal of a
turn or on a rejected reveal. -/
theorem moves_turn_accounting (now index : Nat) (w : World) :
    (revealW now index w).game.moves =
      w.game.moves +
        (if ¬ rejectedFlip index w.game ∧ (w.game.flipped ++ [index]).length = 2
         then 1 else 0) := by
  by_cases hrej : rejectedFlip index w.game
  · rw [revealW_rejected now index w hrej]
    simp [hrej]
  · have hl : w.game.locked = false := by
      rcases h : w.game.locked; rfl; exact absurd (Or.inl h) hrej
    have hv : w.game.victory = false := by
      rcases h : w.game.victory; rfl; exact absurd (Or.inr (Or.inl h)) hrej
    have hnf : index ∉ w.game.flipped := fun h => hrej (Or.inr (Or.inr (Or.inl h)))
    have hm : index ∉ w.game.matched := fun h => hrej (Or.inr (Or.inr (Or.inr h)))
    rcases hf : w.game.flipped with _ | ⟨a, t⟩
    · rw [revealW_first now index w hl hv hm hf]
      simp [hrej, hf]
    · rcases ht : t with _ | ⟨b, t2⟩
      · subst ht
        have hne : index ≠ a := by
          intro hc; exact hnf (hc ▸ hf ▸ List.mem_singleton_self a)
        rw [revealW_second_moves now index a w hl hv hm hf hne]
        simp [hrej, hf]
      · subst ht
        have hlen2 : ¬ (a :: b :: t2 ++ [index]).length = 2 := by simp
        rw [if_neg (fun hc => hlen2 hc.2)]
        rcases t2 with _ | ⟨c, t3⟩ <;>
          rcases hrs : w.game.runningSince with _ | r <;>
          simp [revealW, hl, hv, hf, hrs, hnf, hm] <;>
          split <;> rfl

/-! ### Claim C6: a matched pair resolves synchronously -/

/-- Claim C6: when a second reveal completes a turn and both buffered
positions hold the same (present, non-empty) deck symbol, both indices are
appended to the matched set and the flip buffer is cleared in the same
step, the locked flag stays false, and victory is re-evaluated immediately
as "all positions matched". -/
theorem match_resolves_synchronously (now index a : Nat) (s : String) (w : World)
    (hl : w.game.locked = false) (hv : w.game.victory = false)
    (hm : index ∉ w.game.matched) (hf : w.game.flipped = [a]) (hne : index ≠ a)
    (ha : w.game.deck[a]? = some s) (hi : w.game.deck[index]? = some s)
    (hs : s.isEmpty = false) :
    (revealW now index w).game.matched = w.game.matched ++ [a, index] ∧
    (revealW now index w).game.flipped = [] ∧
    (revealW now index w).game.locked = false ∧
    (revealW now index w).game.victory =
      decide ((w.game.matched ++ [a, index]).length = w.game.deck.length) := by
  rw [revealW_second_match now index a s w hl hv hm hf hne ha hi hs]
  exact ⟨by simp, by simp, by simp [hl], by simp [checkVictory_victory, hv]⟩

/-- Witness for C6: matching the two `🍉` cards of the identity-shuffled
`chill` deck. -/
theorem match_resolves_synchronously_witness :
    (revealW 0 1 (revealW 0 0 (initialWorld id))).game.matched =
      (revealW 0 0 (initialWorld id)).game.matched ++ [0, 1] ∧
    (revealW 0 1 (revealW 0 0 (initialWorld id))).game.flipped = [] ∧
    (revealW 0 1 (revealW 0 0 (initialWorld id))).game.locked = false ∧
    (revealW 0 1 (revealW 0 0 (initialWorld id))).game.victory =
      decide (((revealW 0 0 (initialWorld id)).game.matched ++ [0, 1]).length =
        (revealW 0 0 (initialWorld id)).game.deck.length) :=
  match_resolves_synchronously 0 1 0 "🍉" (revealW 0 0 (initialWorld id))
    (by decide) (by decide) (by decide) (by decide) (by decide)
    (by decide) (by decide) (by decide)

/-! ### Claim C10: the inconsistent-state guard aborts the turn cleanly -/

/-- Claim C10: when a completed two-card turn finds a buffered position
whose deck symbol is missing or empty, the turn is aborted: the flip buffer
is cleared and the locked flag is false, the matched set is untouched, the
move counter advances by exactly the one completed turn, and deck, victory
and best times are untouched (and the function is total, so nothing
propagates). -/
theorem blank_symbol_aborts_turn (now index a : Nat) (w : World)
    (hl : w.game.locked = false) (hv : w.game.victory = false)
    (hm : index ∉ w.game.matched) (hf : w.game.flipped = [a]) (hne : index ≠ a)
    (hblank : (jsFalsyStr w.game.deck[a]? || jsFalsyStr w.game.deck[index]?) = true) :
    (revealW now index w).game.flipped = [] ∧
    (revealW now index w).game.locked = false ∧
    (revealW now index w).game.matched = w.game.matched ∧
    (revealW now index w).game.moves = w.game.moves + 1 ∧
    (revealW now index w).game.victory = w.game.victory ∧
    (revealW now index w).game.deck = w.game.deck ∧
    (revealW now index w).game.bestTimes = w.game.bestTimes := by
  rw [revealW_second_blank now index a w hl hv hm hf hne hblank]
  exact ⟨rfl, rfl, rfl, rfl, by simp [hv], rfl, rfl⟩

/-- Witness for C10: buffering the out-of-range position 99 and completing
the turn with position 1; `deck[99]` is missing, the turn aborts. -/
theorem blank_symbol_aborts_turn_witness :
    (revealW 0 1 (revealW 0 99 (initialWorld id))).game.flipped = [] ∧
    (revealW 0 1 (revealW 0 99 (initialWorld id))).game.locked = false ∧
    (revealW 0 1 (revealW 0 99 (initialWorld id))).game.matched =
      (revealW 0 99 (initialWorld id)).game.matched ∧
    (revealW 0 1 (revealW 0 99 (initialWorld id))).game.moves =
      (revealW 0 99 (initialWorld id)).game.moves + 1 ∧
    (revealW 0 1 (revealW 0 99 (initialWorld id))).game.victory =
      (revealW 0 99 (initialWorld id)).game.victory ∧
    (revealW 0 1 (revealW 0 99 (initialWorld id))).game.deck =
      (revealW 0 99 (initialWorld id)).game.deck ∧
    (revealW 0 1 (revealW 0 99 (initialWorld id))).game.bestTimes =
      (revealW 0 99 (initialWorld id)).game.bestTimes :=
  blank_symbol_aborts_turn 0 1 99 (revealW 0 99 (initialWorld id))
    (by decide) (by decide) (by decide) (by decide) (by decide) (by decide)

/-! ### Best-time bookkeeping -/

@[simp] theorem BestTimes.get_set_self (b : BestTimes) (k : DifficultyKey) (v : Nat) :
    (b.set k v).get k = some v := by
  cases k <;> rfl

theorem BestTimes.get_set_ne (b : BestTimes) (k k2 : DifficultyKey) (v : Nat)
    (h : k ≠ k2) : (b.set k v).get k2 = b.get k2 := by
  cases k <;> cases k2 <;> first | rfl | exact absurd rfl h

/-- The duration `handleWin` records: the anchor-to-now delta when the
clock is running, the frozen `elapsedMs` otherwise. -/
def winDuration (now : Nat) (g : GameState) : Nat :=
  match g.runningSince with
  | some r => now - r
  | none => g.elapsedMs

/-- The exact best-time update rule of `handleWin`: the best is overwritten
when there is no stored best, when the stored best is `0` (JS falsy), or
when the new duration is strictly smaller. -/
theorem handleWin_bestTimes (now : Nat) (g : GameState) :
    (handleWin now g).bestTimes =
      match g.bestTimes.get g.difficulty with
      | none => g.bestTimes.set g.difficulty (winDuration now g)
      | some p =>
        if p = 0 ∨ winDuration now g < p
        then g.bestTimes.set g.difficulty (winDuration now g)
        else g.bestTimes := by
  rcases hbt : g.bestTimes.get g.difficulty with _ | p
  · rcases hrs : g.runningSince with _ | r <;>
      simp [handleWin, stopTimer, winDuration, hrs, hbt, jsFalsyNum]
  · by_cases hp : p = 0
    · subst hp
      rcases hrs : g.runningSince with _ | r <;>
        simp [handleWin, stopTimer, winDuration, hrs, hbt, jsFalsyNum]
    · rcases hrs : g.runningSince with _ | r
      · by_cases hlt : g.elapsedMs < p <;>
          simp [handleWin, stopTimer, winDuration, hrs, hbt, jsFalsyNum, hp, hlt]
      · by_cases hlt : now - r < p <;>
          simp [handleWin, stopTimer, winDuration, hrs, hbt, jsFalsyNum, hp, hlt]

theorem handleWin_get_le (now : Nat) (g : GameState) (dk : DifficultyKey) (b : Nat)
    (hb : g.bestTimes.get dk = some b) (hb0 : b ≠ 0) :
    ∃ b2, (handleWin now g).bestTimes.get dk = some b2 ∧ b2 ≤ b := by
  rw [handleWin_bestTimes]
  by_cases hd : g.difficulty = dk
  · subst hd
    rw [hb]
    dsimp only
    by_cases hlt : winDuration now g < b
    · refine ⟨winDuration now g, ?_, le_of_lt hlt⟩
      rw [if_pos (Or.inr hlt)]
      simp
    · have : ¬ (b = 0 ∨ winDuration now g < b) := by
        rintro (h | h); exact hb0 h; exact hlt h
      rw [if_neg this]
      exact ⟨b, hb, le_refl b⟩
  · rcases hbt : g.bestTimes.get g.difficulty with _ | p <;> dsimp only
    · exact ⟨b, by rw [BestTimes.get_set_ne _ _ _ _ hd]; exact hb, le_refl b⟩
    · split
      · exact ⟨b, by rw [BestTimes.get_set_ne _ _ _ _ hd]; exact hb, le_refl b⟩
      · exact ⟨b, hb, le_refl b⟩

theorem checkVictory_get_le (now : Nat) (g : GameState) (dk : DifficultyKey) (b : Nat)
    (hb : g.bestTimes.get dk = some b) (hb0 : b ≠ 0) :
    ∃ b2, (checkVictory now g).bestTimes.get dk = some b2 ∧ b2 ≤ b := by
  unfold checkVictory
  split
  · exact handleWin_get_le now g dk b hb hb0
  · exact ⟨b, hb, le_refl b⟩

/-! ### Timer callbacks never touch the session bookkeeping fields -/

/-- Is this effect the one non-cosmetic callback (the mismatch reset)? -/
def Eff.isMismatch : Eff → Bool
  | .mismatchReset _ => true
  | _ => false

theorem applyTimer_fields (tm : Timer) (w : World) :
    (applyTimer tm w).game.matched = w.game.matched ∧
    (applyTimer tm w).game.victory = w.game.victory ∧
    (applyTimer tm w).game.deck = w.game.deck ∧
    (applyTimer tm w).game.moves = w.game.moves ∧
    (applyTimer tm w).game.bestTimes = w.game.bestTimes ∧
    (applyTimer tm w).game.difficulty = w.game.difficulty ∧
    (applyTimer tm w).game.elapsedMs = w.game.elapsedMs ∧
    (applyTimer tm w).game.runningSince = w.game.runningSince := by
  rcases tm with ⟨t, eff⟩
  cases eff <;> exact ⟨rfl, rfl, rfl, rfl, rfl, rfl, rfl, rfl⟩

theorem runTimers_fields (t : Nat) (fuel : Nat) (w : World) :
    (runTimers t fuel w).game.matched = w.game.matched ∧
    (runTimers t fuel w).game.victory = w.game.victory ∧
    (runTimers t fuel w).game.deck = w.game.deck ∧
    (runTimers t fuel w).game.moves = w.game.moves ∧
    (runTimers t fuel w).game.bestTimes = w.game.bestTimes ∧
    (runTimers t fuel w).game.difficulty = w.game.difficulty ∧
    (runTimers t fuel w).game.elapsedMs = w.game.elapsedMs ∧
    (runTimers t fuel w).game.runningSince = w.game.runningSince := by
  induction fuel generalizing w with
  | zero => exact ⟨rfl, rfl, rfl, rfl, rfl, rfl, rfl, rfl⟩
  | succ fuel ih =>
    unfold runTimers
    rcases hdue : removeEarliestDue t w.timers with _ | ⟨tm, rest⟩
    · exact ⟨rfl, rfl, rfl, rfl, rfl, rfl, rfl, rfl⟩
    · have h1 := applyTimer_fields tm { w with timers := rest }
      have h2 := ih (applyTimer tm { w with timers := rest })
      simp only [hdue]
      exact ⟨h2.1.trans h1.1, h2.2.1.trans h1.2.1, h2.2.2.1.trans h1.2.2.1,
        h2.2.2.2.1.trans h1.2.2.2.1, h2.2.2.2.2.1.trans h1.2.2.2.2.1,
        h2.2.2.2.2.2.1.trans h1.2.2.2.2.2.1,
        h2.2.2.2.2.2.2.1.trans h1.2.2.2.2.2.2.1,
        h2.2.2.2.2.2.2.2.trans h1.2.2.2.2.2.2.2⟩

theorem advance_fields (t : Nat) (w : World) :
    (advance t w).game.matched = w.game.matched ∧
    (advance t w).game.victory = w.game.victory ∧
    (advance t w).game.deck = w.game.deck ∧
    (advance t w).game.moves = w.game.moves ∧
    (advance t w).game.bestTimes = w.game.bestTimes ∧
    (advance t w).game.difficulty = w.game.difficulty ∧
    (advance t w).game.elapsedMs = w.game.elapsedMs ∧
    (advance t w).game.runningSince = w.game.runningSince :=
  runTimers_fields t _ w

theorem revealW_bestTimes_le (now index : Nat) (w : World) (dk : DifficultyKey) (b : Nat)
    (hb : w.game.bestTimes.get dk = some b) (hb0 : b ≠ 0) :
    ∃ b2, (revealW now index w).game.bestTimes.get dk = some b2 ∧ b2 ≤ b := by
  by_cases hrej : rejectedFlip index w.game
  · rw [revealW_rejected now index w hrej]
    exact ⟨b, hb, le_refl b⟩
  · have hl : w.game.locked = false := by
      rcases h : w.game.locked; rfl; exact absurd (Or.inl h) hrej
    have hv : w.game.victory = false := by
      rcases h : w.game.victory; rfl; exact absurd (Or.inr (Or.inl h)) hrej
    have hnf : index ∉ w.game.flipped := fun h => hrej (Or.inr (Or.inr (Or.inl h)))
    have hm : index ∉ w.game.matched := fun h => hrej (Or.inr (Or.inr (Or.inr h)))
    rcases hf : w.game.flipped with _ | ⟨a, t⟩
    · rw [revealW_first now index w hl hv hm hf]
      exact ⟨b, hb, le_refl b⟩
    · rcases ht : t with _ | ⟨i2, t2⟩
      · subst ht
        have hne : index ≠ a := by
          intro hc; exact hnf (hc ▸ hf ▸ List.mem_singleton_self a)
        rcases hda : w.game.deck[a]? with _ | sa
        · rw [revealW_second_blank now index a w hl hv hm hf hne (by simp [jsFalsyStr, hda])]
          exact ⟨b, hb, le_refl b⟩
        · rcases hdi : w.game.deck[index]? with _ | si
          · rw [revealW_second_blank now index a w hl hv hm hf hne (by simp [jsFalsyStr, hdi])]
            exact ⟨b, hb, le_refl b⟩
          · by_cases hea : sa.isEmpty = true
            · rw [revealW_second_blank now index a w hl hv hm hf hne
                (by simp [jsFalsyStr, hda, hea])]
              exact ⟨b, hb, le_refl b⟩
            · by_cases hei : si.isEmpty = true
              · rw [revealW_second_blank now index a w hl hv hm hf hne
                  (by simp [jsFalsyStr, hdi, hei])]
                exact ⟨b, hb, le_refl b⟩
              · by_cases heq : sa = si
                · subst heq
                  rw [revealW_second_match now index a sa w hl hv hm hf hne hda hdi
                    (Bool.not_eq_true _ ▸ hea)]
                  exact checkVictory_get_le now _ dk b hb hb0
                · rw [revealW_second_mismatch now index a sa si w hl hv hm hf hne hda hdi
                    (Bool.not_eq_true _ ▸ hea) (Bool.not_eq_true _ ▸ hei) heq]
                  exact ⟨b, hb, le_refl b⟩
      · subst ht
        refine ⟨b, ?_, le_refl b⟩
        rcases t2 with _ | ⟨c, t3⟩ <;>
          rcases hrs : w.game.runningSince with _ | r <;>
          simp [revealW, hl, hv, hf, hrs, hnf, hm] <;>
          split <;> simp [hb]

theorem stepE_bestTimes_le (shuf : List String → List String) (e : Event) (w : World)
    (dk : DifficultyKey) (b : Nat)
    (hb : w.game.bestTimes.get dk = some b) (hb0 : b ≠ 0) :
    ∃ b2, (stepE shuf w e).game.bestTimes.get dk = some b2 ∧ b2 ≤ b := by
  cases e with
  | reveal now index => exact revealW_bestTimes_le now index w dk b hb hb0
  | reset level => exact ⟨b, hb, le_refl b⟩
  | advanceTo now =>
    refine ⟨b, ?_, le_refl b⟩
    rw [show (stepE shuf w (.advanceTo now)) = advance now w from rfl,
      (advance_fields now w).2.2.2.2.1]
    exact hb

/-! ### Claim C2 (corrected): the falsy-zero best-time slip -/

/-- Counterexample to claim C2 as stated: winning `chill` with a duration of
`0 ms` stores a best of `0`; because `!previousBest` treats a stored `0` as
absent, a later, slower 5 ms win overwrites it — the stored best time
increases from 0 to 5 even though an entry existed and 5 is not strictly
better. -/
theorem best_time_increases_counterexample :
    (runE id (initialWorld id)
      [.reveal 1000 0, .reveal 1000 1, .reveal 1000 2, .reveal 1000 3,
       .reveal 1000 4, .reveal 1000 5, .reveal 1000 6, .reveal 1000 7,
       .reveal 1000 8, .reveal 1000 9, .reveal 1000 10, .reveal 1000 11]
      ).game.bestTimes.get .chill = some 0 ∧
    (runE id (initialWorld id)
      [.reveal 1000 0, .reveal 1000 1, .reveal 1000 2, .reveal 1000 3,
       .reveal 1000 4, .reveal 1000 5, .reveal 1000 6, .reveal 1000 7,
       .reveal 1000 8, .reveal 1000 9, .reveal 1000 10, .reveal 1000 11,
       .reset .chill,
       .reveal 3000 0, .reveal 3005 1, .reveal 3005 2, .reveal 3005 3,
       .reveal 3005 4, .reveal 3005 5, .reveal 3005 6, .reveal 3005 7,
       .reveal 3005 8, .reveal 3005 9, .reveal 3005 10, .reveal 3005 11]
      ).game.bestTimes.get .chill = some 5 := by
  exact ⟨by decide, by decide⟩

/-- Claim C2 (amended): a stored best of `0` is treated as absent (JS
falsiness), so on victory the best is overwritten exactly when no best is
stored, the stored best is `0`, or the new duration is strictly smaller;
consequently, whenever the stored best for a difficulty is nonzero it never
increases under any operation, and `reset` leaves the whole best-time table
untouched. -/
theorem best_time_amended (shuf : List String → List String) (e : Event) (w : World)
    (dk : DifficultyKey) (b : Nat)
    (hb : w.game.bestTimes.get dk = some b) (hb0 : b ≠ 0) :
    (∃ b2, (stepE shuf w e).game.bestTimes.get dk = some b2 ∧ b2 ≤ b) ∧
    (∀ level w2, (softResetW shuf level w2).game.bestTimes = w2.game.bestTimes) ∧
    (∀ now2 g, (handleWin now2 g).bestTimes =
      match g.bestTimes.get g.difficulty with
      | none => g.bestTimes.set g.difficulty (winDuration now2 g)
      | some p =>
        if p = 0 ∨ winDuration now2 g < p
        then g.bestTimes.set g.difficulty (winDuration now2 g)
        else g.bestTimes) :=
  ⟨stepE_bestTimes_le shuf e w dk b hb hb0,
   fun _ _ => rfl,
   fun now2 g => handleWin_bestTimes now2 g⟩

/-- Witness for the amended C2: a session with stored chill best 5 ms. -/
theorem best_time_amended_witness :
    (∃ b2, (stepE id
        { initialWorld id with game :=
          { (initialWorld id).game with bestTimes := ⟨some 5, none, none⟩ } }
        (.reveal 0 0)).game.bestTimes.get .chill = some b2 ∧ b2 ≤ 5) ∧
    (∀ level w2, (softResetW id level w2).game.bestTimes = w2.game.bestTimes) ∧
    (∀ now2 g, (handleWin now2 g).bestTimes =
      match g.bestTimes.get g.difficulty with
      | none => g.bestTimes.set g.difficulty (winDuration now2 g)
      | some p =>
        if p = 0 ∨ winDuration now2 g < p
        then g.bestTimes.set g.difficulty (winDuration now2 g)
        else g.bestTimes) :=
  best_time_amended id (.reveal 0 0)
    { initialWorld id with game :=
      { (initialWorld id).game with bestTimes := ⟨some 5, none, none⟩ } }
    .chill 5 rfl (by decide)

/-! ### Claim C7: even matched count, victory tracks completion -/

/-- The two-part state invariant of claim C7. -/
def sessionInv (w : World) : Prop :=
  Even w.game.matched.length ∧
  (w.game.victory = true ↔ w.game.matched.length = w.game.deck.length)

theorem revealW_sessionInv (now index : Nat) (w : World) (h : sessionInv w) :
    sessionInv (revealW now index w) := by
  by_cases hrej : rejectedFlip index w.game
  · rw [revealW_rejected now index w hrej]; exact h
  · have hl : w.game.locked = false := by
      rcases hx : w.game.locked; rfl; exact absurd (Or.inl hx) hrej
    have hv : w.game.victory = false := by
      rcases hx : w.game.victory; rfl; exact absurd (Or.inr (Or.inl hx)) hrej
    have hnf : index ∉ w.game.flipped := fun hx => hrej (Or.inr (Or.inr (Or.inl hx)))
    have hm : index ∉ w.game.matched := fun hx => hrej (Or.inr (Or.inr (Or.inr hx)))
    rcases hf : w.game.flipped with _ | ⟨a, t⟩
    · rw [revealW_first now index w hl hv hm hf]; exact h
    · rcases ht : t with _ | ⟨i2, t2⟩
      · subst ht
        have hne : index ≠ a := by
          intro hc; exact hnf (hc ▸ hf ▸ List.mem_singleton_self a)
        rcases hda : w.game.deck[a]? with _ | sa
        · rw [revealW_second_blank now index a w hl hv hm hf hne (by simp [jsFalsyStr, hda])]
          exact ⟨h.1, by simpa [hv] using h.2⟩
        · rcases hdi : w.game.deck[index]? with _ | si
          · rw [revealW_second_blank now index a w hl hv hm hf hne (by simp [jsFalsyStr, hdi])]
            exact ⟨h.1, by simpa [hv] using h.2⟩
          · by_cases hea : sa.isEmpty = true
            · rw [revealW_second_blank now index a w hl hv hm hf hne
                (by simp [jsFalsyStr, hda, hea])]
              exact ⟨h.1, by simpa [hv] using h.2⟩
            · by_cases hei : si.isEmpty = true
              · rw [revealW_second_blank now index a w hl hv hm hf hne
                  (by simp [jsFalsyStr, hdi, hei])]
                exact ⟨h.1, by simpa [hv] using h.2⟩
              · by_cases heq : sa = si
                · subst heq
                  rw [revealW_second_match now index a sa w hl hv hm hf hne hda hdi
                    (Bool.not_eq_true _ ▸ hea)]
                  constructor
                  · have := h.1
                    simp only [checkVictory_matched, List.length_append]
                    exact this.add ⟨1, rfl⟩
                  · simp [checkVictory_victory, hv]
                · rw [revealW_second_mismatch now index a sa si w hl hv hm hf hne hda hdi
                    (Bool.not_eq_true _ ▸ hea) (Bool.not_eq_true _ ▸ hei) heq]
                  exact ⟨h.1, by simpa [hv] using h.2⟩
      · subst ht
        rcases t2 with _ | ⟨c, t3⟩ <;>
          rcases hrs : w.game.runningSince with _ | r <;>
          simp only [revealW, hl, hv, hf, hrs] <;>
          simp [hnf, hm, hf] <;>
          split <;>
          first
            | exact h
            | exact ⟨h.1, by simpa [hv] using h.2⟩

theorem softResetW_sessionInv (shuf : List String → List String)
    (hperm : ∀ l, (shuf l).Perm l) (level : DifficultyKey) (w : World) :
    sessionInv (softResetW shuf level w) := by
  have hp : (difficulties level).pairs ≤ (difficulties level).pool.length := by
    cases level <;> decide
  have hlen := buildDeck_length shuf hperm (difficulties level) hp
  have hpz : (difficulties level).pairs ≠ 0 := by cases level <;> decide
  refine ⟨by simp [softResetW], ?_⟩
  show false = true ↔ List.length [] = (buildDeck shuf (difficulties level)).length
  rw [hlen]
  simp
  omega

theorem initialWorld_sessionInv (shuf : List String → List String)
    (hperm : ∀ l, (shuf l).Perm l) : sessionInv (initialWorld shuf) := by
  have hp : (difficulties .chill).pairs ≤ (difficulties .chill).pool.length := by decide
  have hlen := buildDeck_length shuf hperm (difficulties .chill) hp
  refine ⟨by simp [initialWorld, createInitialState], ?_⟩
  show false = true ↔
    List.length [] = (buildDeck shuf (difficulties defaultDifficulty)).length
  rw [show defaultDifficulty = DifficultyKey.chill from rfl, hlen]
  simp
  decide

theorem advance_sessionInv (t : Nat) (w : World) (h : sessionInv w) :
    sessionInv (advance t w) := by
  have hfields := advance_fields t w
  unfold sessionInv
  rw [hfields.1, hfields.2.1, hfields.2.2.1]
  exact h

theorem stepE_sessionInv (shuf : List String → List String)
    (hperm : ∀ l, (shuf l).Perm l) (w : World) (e : Event) (h : sessionInv w) :
    sessionInv (stepE shuf w e) := by
  cases e with
  | reveal now index => exact revealW_sessionInv now index w h
  | reset level => exact softResetW_sessionInv shuf hperm level w
  | advanceTo now => exact advance_sessionInv now w h

theorem runE_sessionInv (shuf : List String → List String)
    (hperm : ∀ l, (shuf l).Perm l) (events : List Event) (w : World)
    (h : sessionInv w) : sessionInv (runE shuf w events) := by
  induction events generalizing w with
  | nil => exact h
  | cons e es ih => exact ih _ (stepE_sessionInv shuf hperm w e h)

/-- Claim C7: starting from the freshly initialized world (and across any
sequence of reveals, resets and elapsing timers, hence from every reset
state too), the matched set's size is always even and the victory flag is
set exactly when every deck position is matched — provided the shuffle
primitive permutes its input. -/
theorem matched_even_victory_tracks (shuf : List String → List String)
    (hperm : ∀ l, (shuf l).Perm l) (events : List Event) :
    Even (runE shuf (initialWorld shuf) events).game.matched.length ∧
    ((runE shuf (initialWorld shuf) events).game.victory = true ↔
      (runE shuf (initialWorld shuf) events).game.matched.length =
        (runE shuf (initialWorld shuf) events).game.deck.length) :=
  runE_sessionInv shuf hperm events (initialWorld shuf)
    (initialWorld_sessionInv shuf hperm)

/-- Witness for C7: a short mixed trace under the identity shuffle. -/
theorem matched_even_victory_tracks_witness :
    Even (runE id (initialWorld id)
      [.reveal 0 0, .reveal 0 1, .reveal 5 2, .reveal 5 4, .advanceTo 2000,
       .reveal 2100 2, .reveal 2100 3]).game.matched.length ∧
    ((runE id (initialWorld id)
      [.reveal 0 0, .reveal 0 1, .reveal 5 2, .reveal 5 4, .advanceTo 2000,
       .reveal 2100 2, .reveal 2100 3]).game.victory = true ↔
      (runE id (initialWorld id)
        [.reveal 0 0, .reveal 0 1, .reveal 5 2, .reveal 5 4, .advanceTo 2000,
         .reveal 2100 2, .reveal 2100 3]).game.matched.length =
        (runE id (initialWorld id)
          [.reveal 0 0, .reveal 0 1, .reveal 5 2, .reveal 5 4, .advanceTo 2000,
           .reveal 2100 2, .reveal 2100 3]).game.deck.length) :=
  matched_even_victory_tracks id (fun l => List.Perm.refl l)
    [.reveal 0 0, .reveal 0 1, .reveal 5 2, .reveal 5 4, .advanceTo 2000,
     .reveal 2100 2, .reveal 2100 3]

/-! ### Claim C1: reset does not cancel the pending mismatch timer -/

/-- Claim C1 (evaluation of the code at the failing input): `softReset`
clears the session fields but leaves the mismatch-reset timeout queued by
`queueMismatchReset` pending.  In the trace below a mismatch at t = 0 is
followed by a reset and a fresh reveal of position 0 in the new session
(flip buffer `[0]`); when the stale timer fires at t = 1550 it wipes the
new session's flip buffer to `[]` — the pending callback is keyed to raw
state, not to the session identity, so its effects survive the reset. -/
theorem stale_mismatch_timer_corrupts_new_session :
    (runE id (initialWorld id)
      [.reveal 0 0, .reveal 0 2, .reset .chill, .reveal 200 0]
      ).game.flipped = [0] ∧
    (runE id (initialWorld id)
      [.reveal 0 0, .reveal 0 2, .reset .chill, .reveal 200 0]
      ).timers.length = 2 ∧
    (runE id (initialWorld id)
      [.reveal 0 0, .reveal 0 2, .reset .chill, .reveal 200 0, .advanceTo 1550]
      ).game.flipped = [] := by
  exact ⟨by decide, by decide, by decide⟩

/-! ### Timer queue machinery for the mismatch lock protocol -/

theorem removeEarliestDue_perm (t : Nat) (l : List Timer) (tm : Timer) (rest : List Timer)
    (h : removeEarliestDue t l = some (tm, rest)) :
    tm.fireAt ≤ t ∧ l.Perm (tm :: rest) := by
  induction l generalizing tm rest with
  | nil => simp [removeEarliestDue] at h
  | cons hd tl ih =>
    unfold removeEarliestDue at h
    by_cases hle : hd.fireAt ≤ t
    · rw [if_pos hle] at h
      rcases hrec : removeEarliestDue t tl with _ | ⟨tm', rest'⟩
      · rw [hrec] at h
        obtain ⟨rfl, rfl⟩ : hd = tm ∧ tl = rest := by
          constructor <;> { injection h with h2; injection h2 }
        exact ⟨hle, List.Perm.refl _⟩
      · rw [hrec] at h
        dsimp only at h
        obtain ⟨h1, h2⟩ := ih tm' rest' hrec
        by_cases hlt : tm'.fireAt < hd.fireAt
        · rw [if_pos hlt] at h
          obtain ⟨rfl, rfl⟩ : tm' = tm ∧ hd :: rest' = rest := by
            constructor <;> { injection h with h3; injection h3 }
          exact ⟨h1, ((h2.cons hd).trans (List.Perm.swap _ hd rest'))⟩
        · rw [if_neg hlt] at h
          obtain ⟨rfl, rfl⟩ : hd = tm ∧ tl = rest := by
            constructor <;> { injection h with h3; injection h3 }
          exact ⟨hle, List.Perm.refl _⟩
    · rw [if_neg hle] at h
      rcases hrec : removeEarliestDue t tl with _ | ⟨tm', rest'⟩
      · rw [hrec] at h; exact absurd h (by simp)
      · rw [hrec] at h
        dsimp only at h
        obtain ⟨rfl, rfl⟩ : tm' = tm ∧ hd :: rest' = rest := by
          constructor <;> { injection h with h3; injection h3 }
        obtain ⟨h1, h2⟩ := ih _ _ hrec
        exact ⟨h1, ((h2.cons hd).trans (List.Perm.swap _ hd rest'))⟩

theorem removeEarliestDue_none (t : Nat) (l : List Timer)
    (h : removeEarliestDue t l = none) : ∀ tm ∈ l, ¬ tm.fireAt ≤ t := by
  induction l with
  | nil => intro tm htm; simp at htm
  | cons hd tl ih =>
    unfold removeEarliestDue at h
    by_cases hle : hd.fireAt ≤ t
    · rw [if_pos hle] at h
      rcases hrec : removeEarliestDue t tl with _ | ⟨tm', rest'⟩ <;>
        rw [hrec] at h <;> dsimp only at h
      · simp at h
      · split at h <;> simp at h
    · rw [if_neg hle] at h
      rcases hrec : removeEarliestDue t tl with _ | ⟨tm', rest'⟩
      · intro tm htm
        rcases List.mem_cons.mp htm with rfl | htl
        · exact hle
        · exact ih hrec tm htl
      · rw [hrec] at h; simp at h

theorem removeEarliestDue_isSome (t : Nat) (l : List Timer) (tm : Timer)
    (htm : tm ∈ l) (hdue : tm.fireAt ≤ t) :
    removeEarliestDue t l ≠ none := by
  intro hnone
  exact removeEarliestDue_none t l hnone tm htm hdue

theorem applyTimer_game_cosmetic (tm : Timer) (w : World)
    (h : tm.eff.isMismatch = false) : (applyTimer tm w).game = w.game := by
  rcases tm with ⟨t, eff⟩
  cases eff with
  | mismatchReset idxs => simp [Eff.isMismatch] at h
  | matchVisual a b => rfl
  | flashFeedback idxs mood d => rfl
  | clearFeedback idxs mood => rfl

theorem length_foldl_set_visual (idxs : List Nat) (v : List CardState) (c : CardState) :
    (idxs.foldl (fun v2 i => v2.set i c) v).length = v.length := by
  induction idxs generalizing v with
  | nil => rfl
  | cons i rest ih => simp [ih, List.length_set]

theorem applyTimer_visual_length (tm : Timer) (w : World) :
    (applyTimer tm w).visual.length = w.visual.length := by
  rcases tm with ⟨t, eff⟩
  cases eff with
  | mismatchReset idxs => exact length_foldl_set_visual idxs w.visual CardState.idle
  | matchVisual a b => simp [applyTimer, List.length_set]
  | flashFeedback idxs mood d => rfl
  | clearFeedback idxs mood => rfl

theorem applyTimer_timers_mem (tm : Timer) (w : World) (x : Timer)
    (hx : x ∈ (applyTimer tm w).timers) :
    x ∈ w.timers ∨ ∃ idxs mood, x.eff = Eff.clearFeedback idxs mood := by
  rcases tm with ⟨t, eff⟩
  cases eff with
  | mismatchReset idxs => exact Or.inl hx
  | matchVisual a b => exact Or.inl hx
  | flashFeedback idxs mood d =>
    rcases List.mem_append.mp hx with h | h
    · exact Or.inl h
    · simp only [List.mem_singleton] at h
      exact Or.inr ⟨idxs, mood, by rw [h]⟩
  | clearFeedback idxs mood => exact Or.inl hx

theorem queueWeight_perm (l l2 : List Timer) (h : l.Perm l2) :
    queueWeight l = queueWeight l2 :=
  List.Perm.sum_eq (h.map timerWeight)

theorem timerWeight_pos (tm : Timer) : 1 ≤ timerWeight tm := by
  rcases tm with ⟨t, eff⟩; cases eff <;> simp [timerWeight]

theorem applyTimer_queueWeight (tm : Timer) (w : World) :
    queueWeight (applyTimer tm w).timers < timerWeight tm + queueWeight w.timers := by
  rcases tm with ⟨t, eff⟩
  cases eff with
  | mismatchReset idxs => simp [applyTimer, timerWeight]
  | matchVisual a b => simp [applyTimer, timerWeight]
  | flashFeedback idxs mood d =>
    simp [applyTimer, timerWeight, queueWeight]
    omega
  | clearFeedback idxs mood => simp [applyTimer, timerWeight]

theorem runTimers_no_due (t : Nat) (fuel : Nat) (w : World)
    (hfuel : queueWeight w.timers < fuel) :
    removeEarliestDue t (runTimers t fuel w).timers = none := by
  induction fuel generalizing w with
  | zero => omega
  | succ fuel ih =>
    unfold runTimers
    rcases hdue : removeEarliestDue t w.timers with _ | ⟨tm, rest⟩
    · exact hdue
    · obtain ⟨h1, h2⟩ := removeEarliestDue_perm t w.timers tm rest hdue
      apply ih
      have hw : queueWeight w.timers = timerWeight tm + queueWeight rest := by
        rw [queueWeight_perm _ _ h2]; simp [queueWeight]
      have := applyTimer_queueWeight tm { w with timers := rest }
      simp only [] at this
      omega

theorem getElem?_set_lt {α : Type} (l : List α) (n : Nat) (a : α) (h : n < l.length) :
    (l.set n a)[n]? = some a := by
  simp [List.getElem?_set_self', h]

theorem applyTimer_timers_super (tm : Timer) (w : World) (x : Timer)
    (hx : x ∈ w.timers) : x ∈ (applyTimer tm w).timers := by
  rcases tm with ⟨t, eff⟩
  cases eff with
  | mismatchReset idxs => exact hx
  | matchVisual a b => exact hx
  | flashFeedback idxs mood d => exact List.mem_append_left _ hx
  | clearFeedback idxs mood => exact hx

/-- A timer whose callback never repaints positions `a` or `b`. -/
def avoidsPair (a b : Nat) (tm : Timer) : Prop :=
  ∀ x y, tm.eff = Eff.matchVisual x y → x ≠ a ∧ x ≠ b ∧ y ≠ a ∧ y ≠ b

theorem applyTimer_visual_get (tm : Timer) (w : World) (a b : Nat)
    (hcos : tm.eff.isMismatch = false) (hav : avoidsPair a b tm) :
    (applyTimer tm w).visual[a]? = w.visual[a]? ∧
    (applyTimer tm w).visual[b]? = w.visual[b]? := by
  rcases tm with ⟨t, eff⟩
  cases eff with
  | mismatchReset idxs => simp [Eff.isMismatch] at hcos
  | matchVisual x y =>
    obtain ⟨hxa, hxb, hya, hyb⟩ := hav x y rfl
    constructor <;> show ((w.visual.set x _).set y _)[_]? = _
    · rw [List.getElem?_set_ne hya, List.getElem?_set_ne hxa]
    · rw [List.getElem?_set_ne hyb, List.getElem?_set_ne hxb]
  | flashFeedback idxs mood d => exact ⟨rfl, rfl⟩
  | clearFeedback idxs mood => exact ⟨rfl, rfl⟩

/-- The protocol state between the mismatch moment and the reset deadline:
the session is locked on the mismatched pair `[a, b]`, the matched set is
`m0`, exactly the one mismatch-reset timer (deadline `dl`) is pending among
otherwise cosmetic timers, and no pending callback repaints `a` or `b`. -/
def mismatchPending (a b : Nat) (m0 : List Nat) (dl : Nat) (w : World) : Prop :=
  w.game.locked = true ∧
  w.game.victory = false ∧
  w.game.flipped = [a, b] ∧
  w.game.matched = m0 ∧
  a ∉ m0 ∧ b ∉ m0 ∧ a ≠ b ∧
  a < w.visual.length ∧ b < w.visual.length ∧
  (⟨dl, Eff.mismatchReset [a, b]⟩ : Timer) ∈ w.timers ∧
  (∀ tm ∈ w.timers, tm.eff.isMismatch = true → tm = ⟨dl, Eff.mismatchReset [a, b]⟩) ∧
  (∀ tm ∈ w.timers, avoidsPair a b tm)

/-- The state after the mismatch-reset callback has run: unlocked, empty
flip buffer, matched set still `m0`, both cards repainted hidden. -/
def postMismatchReset (a b : Nat) (m0 : List Nat) (w : World) : Prop :=
  w.game.locked = false ∧
  w.game.victory = false ∧
  w.game.flipped = [] ∧
  w.game.matched = m0 ∧
  a ∉ m0 ∧ b ∉ m0 ∧ a ≠ b ∧
  a < w.visual.length ∧ b < w.visual.length ∧
  w.visual[a]? = some CardState.idle ∧
  w.visual[b]? = some CardState.idle ∧
  (∀ tm ∈ w.timers, tm.eff.isMismatch = true → tm.eff = Eff.mismatchReset [a, b]) ∧
  (∀ tm ∈ w.timers, avoidsPair a b tm)

theorem applyTimer_mismatchReset_post (f : Nat) (a b : Nat) (m0 : List Nat) (w : World)
    (hmat : w.game.matched = m0) (hvic : w.game.victory = false)
    (_hma : a ∉ m0) (_hmb : b ∉ m0) (hab : a ≠ b)
    (hla : a < w.visual.length) (hlb : b < w.visual.length) :
    (applyTimer ⟨f, Eff.mismatchReset [a, b]⟩ w).game.locked = false ∧
    (applyTimer ⟨f, Eff.mismatchReset [a, b]⟩ w).game.victory = false ∧
    (applyTimer ⟨f, Eff.mismatchReset [a, b]⟩ w).game.flipped = [] ∧
    (applyTimer ⟨f, Eff.mismatchReset [a, b]⟩ w).game.matched = m0 ∧
    (applyTimer ⟨f, Eff.mismatchReset [a, b]⟩ w).visual[a]? = some CardState.idle ∧
    (applyTimer ⟨f, Eff.mismatchReset [a, b]⟩ w).visual[b]? = some CardState.idle ∧
    (applyTimer ⟨f, Eff.mismatchReset [a, b]⟩ w).visual.length = w.visual.length ∧
    (applyTimer ⟨f, Eff.mismatchReset [a, b]⟩ w).timers = w.timers := by
  refine ⟨rfl, hvic, rfl, hmat, ?_, ?_, ?_, rfl⟩
  · show ((w.visual.set a CardState.idle).set b CardState.idle)[a]? = some CardState.idle
    rw [List.getElem?_set_ne (Ne.symm hab)]
    exact getElem?_set_lt w.visual a CardState.idle hla
  · show ((w.visual.set a CardState.idle).set b CardState.idle)[b]? = some CardState.idle
    exact getElem?_set_lt _ b CardState.idle (by simpa [List.length_set] using hlb)
  · show ((w.visual.set a CardState.idle).set b CardState.idle).length = w.visual.length
    simp [List.length_set]

theorem runTimers_mismatch_disj (t fuel : Nat) (a b : Nat) (m0 : List Nat) (dl : Nat)
    (w : World) (h : mismatchPending a b m0 dl w ∨ postMismatchReset a b m0 w) :
    mismatchPending a b m0 dl (runTimers t fuel w) ∨
    postMismatchReset a b m0 (runTimers t fuel w) := by
  induction fuel generalizing w with
  | zero => exact h
  | succ fuel ih =>
    unfold runTimers
    rcases hdue : removeEarliestDue t w.timers with _ | ⟨tm, rest⟩
    · exact h
    · obtain ⟨hfire, hperm⟩ := removeEarliestDue_perm t w.timers tm rest hdue
      have htm_mem : tm ∈ w.timers := hperm.symm.subset (List.mem_cons_self tm rest)
      have hrest_sub : ∀ x ∈ rest, x ∈ w.timers :=
        fun x hx => hperm.symm.subset (List.mem_cons_of_mem tm hx)
      set w1 : World := { w with timers := rest } with hw1
      apply ih
      rcases h with hmp | hpost
      · obtain ⟨hlk, hvic, hfl, hmat, hma, hmb, hab, hla, hlb, hmt, hone, hav⟩ := hmp
        by_cases hmis : tm.eff.isMismatch = true
        · -- the due timer is the mismatch reset itself: transition to the post state
          have htm_eq : tm = ⟨dl, Eff.mismatchReset [a, b]⟩ := hone tm htm_mem hmis
          subst htm_eq
          right
          obtain ⟨p1, p2, p3, p4, p5, p6, p7, p8⟩ :=
            applyTimer_mismatchReset_post dl a b m0 w1 hmat hvic hma hmb hab hla hlb
          refine ⟨p1, p2, p3, p4, hma, hmb, hab, ?_, ?_, p5, p6, ?_, ?_⟩
          · rw [p7]; exact hla
          · rw [p7]; exact hlb
          · intro x hx hxm
            rw [p8] at hx
            exact congrArg Timer.eff (hone x (hrest_sub x hx) hxm) |>.trans rfl
          · intro x hx
            rw [p8] at hx
            exact hav x (hrest_sub x hx)
        · -- a cosmetic timer fires: the pending state survives
          left
          have hcos : tm.eff.isMismatch = false := Bool.not_eq_true _ ▸ hmis
          have hgame := applyTimer_game_cosmetic tm w1 hcos
          have hvlen := applyTimer_visual_length tm w1
          have hmt_rest : (⟨dl, Eff.mismatchReset [a, b]⟩ : Timer) ∈ rest := by
            have := hperm.subset hmt
            rcases List.mem_cons.mp this with heq | hin
            · exfalso; rw [← heq] at hcos; simp [Eff.isMismatch] at hcos
            · exact hin
          refine ⟨?_, ?_, ?_, ?_, hma, hmb, hab, ?_, ?_, ?_, ?_, ?_⟩
          · rw [hgame]; exact hlk
          · rw [hgame]; exact hvic
          · rw [hgame]; exact hfl
          · rw [hgame]; exact hmat
          · rw [hvlen]; exact hla
          · rw [hvlen]; exact hlb
          · exact applyTimer_timers_super tm w1 _ hmt_rest
          · intro x hx hxm
            rcases applyTimer_timers_mem tm w1 x hx with hin | ⟨idxs, mood, hcf⟩
            · exact hone x (hrest_sub x hin) hxm
            · rw [hcf] at hxm; simp [Eff.isMismatch] at hxm
          · intro x hx
            rcases applyTimer_timers_mem tm w1 x hx with hin | ⟨idxs, mood, hcf⟩
            · exact hav x (hrest_sub x hin)
            · intro x2 y2 hxy; rw [hcf] at hxy; exact absurd hxy (by simp)
      · -- already in the post state: any firing keeps it
        obtain ⟨hlk, hvic, hfl, hmat, hma, hmb, hab, hla, hlb, hia, hib, hone, hav⟩ := hpost
        right
        by_cases hmis : tm.eff.isMismatch = true
        · have heff : tm.eff = Eff.mismatchReset [a, b] := hone tm htm_mem hmis
          have htm_shape : tm = ⟨tm.fireAt, Eff.mismatchReset [a, b]⟩ := by
            rcases tm with ⟨f, e⟩; simp only at heff; rw [heff]
          rw [htm_shape]
          obtain ⟨p1, p2, p3, p4, p5, p6, p7, p8⟩ :=
            applyTimer_mismatchReset_post tm.fireAt a b m0 w1 hmat hvic hma hmb hab hla hlb
          refine ⟨p1, p2, p3, p4, hma, hmb, hab, ?_, ?_, p5, p6, ?_, ?_⟩
          · rw [p7]; exact hla
          · rw [p7]; exact hlb
          · intro x hx hxm
            rw [p8] at hx
            exact hone x (hrest_sub x hx) hxm
          · intro x hx
            rw [p8] at hx
            exact hav x (hrest_sub x hx)
        · have hcos : tm.eff.isMismatch = false := Bool.not_eq_true _ ▸ hmis
          have hgame := applyTimer_game_cosmetic tm w1 hcos
          have hvlen := applyTimer_visual_length tm w1
          have hvget := applyTimer_visual_get tm w1 a b hcos (hav tm htm_mem)
          refine ⟨?_, ?_, ?_, ?_, hma, hmb, hab, ?_, ?_, ?_, ?_, ?_, ?_⟩
          · rw [hgame]; exact hlk
          · rw [hgame]; exact hvic
          · rw [hgame]; exact hfl
          · rw [hgame]; exact hmat
          · rw [hvlen]; exact hla
          · rw [hvlen]; exact hlb
          · rw [hvget.1]; exact hia
          · rw [hvget.2]; exact hib
          · intro x hx hxm
            rcases applyTimer_timers_mem tm w1 x hx with hin | ⟨idxs, mood, hcf⟩
            · exact hone x (hrest_sub x hin) hxm
            · rw [hcf] at hxm; simp [Eff.isMismatch] at hxm
          · intro x hx
            rcases applyTimer_timers_mem tm w1 x hx with hin | ⟨idxs, mood, hcf⟩
            · exact hav x (hrest_sub x hin)
            · intro x2 y2 hxy; rw [hcf] at hxy; exact absurd hxy (by simp)

theorem mismatchPending_cosmetic_step (a b : Nat) (m0 : List Nat) (dl : Nat)
    (w : World) (tm : Timer) (rest : List Timer)
    (hperm : w.timers.Perm (tm :: rest)) (hcos : tm.eff.isMismatch = false)
    (h : mismatchPending a b m0 dl w) :
    mismatchPending a b m0 dl (applyTimer tm { w with timers := rest }) := by
  obtain ⟨hlk, hvic, hfl, hmat, hma, hmb, hab, hla, hlb, hmt, hone, hav⟩ := h
  have hrest_sub : ∀ x ∈ rest, x ∈ w.timers :=
    fun x hx => hperm.symm.subset (List.mem_cons_of_mem tm hx)
  set w1 : World := { w with timers := rest } with hw1
  have hgame := applyTimer_game_cosmetic tm w1 hcos
  have hvlen := applyTimer_visual_length tm w1
  have hmt_rest : (⟨dl, Eff.mismatchReset [a, b]⟩ : Timer) ∈ rest := by
    rcases List.mem_cons.mp (hperm.subset hmt) with heq | hin
    · exfalso; rw [← heq] at hcos; simp [Eff.isMismatch] at hcos
    · exact hin
  refine ⟨?_, ?_, ?_, ?_, hma, hmb, hab, ?_, ?_, ?_, ?_, ?_⟩
  · rw [hgame]; exact hlk
  · rw [hgame]; exact hvic
  · rw [hgame]; exact hfl
  · rw [hgame]; exact hmat
  · rw [hvlen]; exact hla
  · rw [hvlen]; exact hlb
  · exact applyTimer_timers_super tm w1 _ hmt_rest
  · intro x hx hxm
    rcases applyTimer_timers_mem tm w1 x hx with hin | ⟨idxs, mood, hcf⟩
    · exact hone x (hrest_sub x hin) hxm
    · rw [hcf] at hxm; simp [Eff.isMismatch] at hxm
  · intro x hx
    rcases applyTimer_timers_mem tm w1 x hx with hin | ⟨idxs, mood, hcf⟩
    · exact hav x (hrest_sub x hin)
    · intro x2 y2 hxy; rw [hcf] at hxy; exact absurd hxy (by simp)

theorem runTimers_mismatchPending_early (t fuel : Nat) (a b : Nat) (m0 : List Nat)
    (dl : Nat) (w : World) (ht : t < dl) (h : mismatchPending a b m0 dl w) :
    mismatchPending a b m0 dl (runTimers t fuel w) := by
  induction fuel generalizing w with
  | zero => exact h
  | succ fuel ih =>
    unfold runTimers
    rcases hdue : removeEarliestDue t w.timers with _ | ⟨tm, rest⟩
    · exact h
    · obtain ⟨hfire, hperm⟩ := removeEarliestDue_perm t w.timers tm rest hdue
      have htm_mem : tm ∈ w.timers := hperm.symm.subset (List.mem_cons_self tm rest)
      have hcos : tm.eff.isMismatch = false := by
        rcases hmis : tm.eff.isMismatch with _ | _
        · rfl
        · exfalso
          have := h.2.2.2.2.2.2.2.2.2.2.1 tm htm_mem hmis
          rw [this] at hfire
          simp only at hfire
          omega
      exact ih _ (mismatchPending_cosmetic_step a b m0 dl w tm rest hperm hcos h)

theorem advance_mismatchPending_early (t : Nat) (a b : Nat) (m0 : List Nat)
    (dl : Nat) (w : World) (ht : t < dl) (h : mismatchPending a b m0 dl w) :
    mismatchPending a b m0 dl (advance t w) :=
  runTimers_mismatchPending_early t _ a b m0 dl w ht h

theorem advance_mismatch_fires (t : Nat) (a b : Nat) (m0 : List Nat)
    (dl : Nat) (w : World) (ht : dl ≤ t) (h : mismatchPending a b m0 dl w) :
    postMismatchReset a b m0 (advance t w) := by
  rcases runTimers_mismatch_disj t (queueWeight w.timers + 1) a b m0 dl w (Or.inl h)
    with hmp | hpost
  · exfalso
    have hnodue := runTimers_no_due t (queueWeight w.timers + 1) w (Nat.lt_succ_self _)
    exact removeEarliestDue_isSome t _ _ hmp.2.2.2.2.2.2.2.2.2.1 ht hnodue
  · exact hpost

/-- Claim C8: on a mismatch, `locked` is set true at the mismatch moment
and the protocol state `mismatchPending` is established with the reset
deadline `now + MISMATCH_RESET_DELAY`; while that state holds, every
reveal is silently rejected (the whole world is unchanged); advancing time
to any instant strictly before the deadline — in particular past the
shorter cosmetic-feedback deadline `now + FLIP_DURATION` — leaves the
protocol state (locked included) intact; and advancing to any instant at
or past the deadline fires the reset: the flip buffer is cleared, both
positions are repainted hidden, `locked` is false, the matched set is
unchanged, and each of the two positions is independently revealable
again. -/
theorem mismatch_lock_protocol (now index a : Nat) (s s2 : String) (w : World)
    (hl : w.game.locked = false) (hv : w.game.victory = false)
    (hm : index ∉ w.game.matched) (hma : a ∉ w.game.matched)
    (hf : w.game.flipped = [a]) (hne : index ≠ a)
    (ha : w.game.deck[a]? = some s) (hi : w.game.deck[index]? = some s2)
    (hs : s.isEmpty = false) (hs2 : s2.isEmpty = false) (hdiff : s ≠ s2)
    (hva : a < w.visual.length) (hvi : index < w.visual.length)
    (hcos : ∀ tm ∈ w.timers, tm.eff.isMismatch = false)
    (hav : ∀ tm ∈ w.timers, avoidsPair a index tm) :
    (revealW now index w).game.locked = true ∧
    mismatchPending a index w.game.matched (now + MISMATCH_RESET_DELAY)
      (revealW now index w) ∧
    (∀ w2 t2 j, mismatchPending a index w.game.matched (now + MISMATCH_RESET_DELAY) w2 →
      revealW t2 j w2 = w2) ∧
    (∀ w2 t2, t2 < now + MISMATCH_RESET_DELAY →
      mismatchPending a index w.game.matched (now + MISMATCH_RESET_DELAY) w2 →
      mismatchPending a index w.game.matched (now + MISMATCH_RESET_DELAY)
        (advance t2 w2)) ∧
    (∀ w2 t2, now + MISMATCH_RESET_DELAY ≤ t2 →
      mismatchPending a index w.game.matched (now + MISMATCH_RESET_DELAY) w2 →
      postMismatchReset a index w.game.matched (advance t2 w2) ∧
      (∀ t3, (revealW t3 a (advance t2 w2)).game.flipped = [a]) ∧
      (∀ t3, (revealW t3 index (advance t2 w2)).game.flipped = [index])) := by
  have hrw := revealW_second_mismatch now index a s s2 w hl hv hm hf hne ha hi hs hs2 hdiff
  have hmp : mismatchPending a index w.game.matched (now + MISMATCH_RESET_DELAY)
      (revealW now index w) := by
    rw [hrw]
    refine ⟨rfl, hv, rfl, rfl, hma, hm, Ne.symm hne, ?_, ?_, ?_, ?_, ?_⟩
    · simpa [List.length_set] using hva
    · simpa [List.length_set] using hvi
    · exact List.mem_append_right _ (by simp)
    · intro tm htm hmis
      rcases List.mem_append.mp htm with hin | hin
      · exact absurd hmis (by rw [hcos tm hin]; simp)
      · rcases List.mem_cons.mp hin with rfl | hin2
        · exact absurd hmis (by simp [Eff.isMismatch])
        · rcases List.mem_singleton.mp hin2 with rfl
          rfl
    · intro tm htm
      rcases List.mem_append.mp htm with hin | hin
      · exact hav tm hin
      · rcases List.mem_cons.mp hin with rfl | hin2
        · intro x y hxy; exact absurd hxy (by simp)
        · rcases List.mem_singleton.mp hin2 with rfl
          intro x y hxy; exact absurd hxy (by simp)
  refine ⟨by rw [hrw], hmp, ?_, ?_, ?_⟩
  · intro w2 t2 j hmp2
    exact revealW_rejected t2 j w2 (Or.inl hmp2.1)
  · intro w2 t2 ht hmp2
    exact advance_mismatchPending_early t2 a index _ _ w2 ht hmp2
  · intro w2 t2 ht hmp2
    have hpost := advance_mismatch_fires t2 a index _ _ w2 ht hmp2
    refine ⟨hpost, ?_, ?_⟩ <;> intro t3
    · rw [revealW_first t3 a (advance t2 w2) hpost.1 hpost.2.1
        (by rw [hpost.2.2.2.1]; exact hpost.2.2.2.2.1) hpost.2.2.1]
    · rw [revealW_first t3 index (advance t2 w2) hpost.1 hpost.2.1
        (by rw [hpost.2.2.2.1]; exact hpost.2.2.2.2.2.1) hpost.2.2.1]

/-- Witness for C8: the concrete mismatch `🍉` / `🍋` (positions 0 and 2 of
the identity-shuffled chill deck) at t = 0: locked immediately; still locked
and rejecting input at t = 700 (after the cosmetic deadline 650); cleared,
unlocked and revealable again once t reaches 1550. -/
theorem mismatch_lock_protocol_witness :
    (revealW 0 2 (revealW 0 0 (initialWorld id))).game.locked = true ∧
    (advance 700 (revealW 0 2 (revealW 0 0 (initialWorld id)))).game.locked = true ∧
    revealW 700 4 (advance 700 (revealW 0 2 (revealW 0 0 (initialWorld id)))) =
      advance 700 (revealW 0 2 (revealW 0 0 (initialWorld id))) ∧
    (advance 1550 (revealW 0 2 (revealW 0 0 (initialWorld id)))).game.flipped = [] ∧
    (advance 1550 (revealW 0 2 (revealW 0 0 (initialWorld id)))).game.locked = false ∧
    (revealW 1600 0
      (advance 1550 (revealW 0 2 (revealW 0 0 (initialWorld id))))).game.flipped =
      [0] := by
  have hnil : (revealW 0 0 (initialWorld id)).timers = [] := by decide
  have h := mismatch_lock_protocol 0 2 0 "🍉" "🍋" (revealW 0 0 (initialWorld id))
    (by decide) (by decide) (by decide) (by decide) (by decide) (by decide)
    (by decide) (by decide) (by decide) (by decide) (by decide) (by decide) (by decide)
    (by intro tm htm; rw [hnil] at htm; exact absurd htm (List.not_mem_nil tm))
    (by intro tm htm; rw [hnil] at htm; exact absurd htm (List.not_mem_nil tm))
  have hmp0 := h.2.1
  have hmp700 := h.2.2.2.1 (revealW 0 2 (revealW 0 0 (initialWorld id))) 700
    (by decide) hmp0
  have hlate := h.2.2.2.2 (revealW 0 2 (revealW 0 0 (initialWorld id))) 1550
    (by decide) hmp0
  exact ⟨h.1, hmp700.1,
    h.2.2.1 _ 700 4 hmp700,
    hlate.1.2.2.1, hlate.1.1, hlate.2.1 1600⟩

/-! ### The auto-solver: cosmetic timer queues and bucket analysis -/

theorem runTimers_cosmeticQueue (t fuel : Nat) (w : World)
    (h : ∀ tm ∈ w.timers, tm.eff.isMismatch = false) :
    (runTimers t fuel w).game = w.game ∧
    (runTimers t fuel w).visual.length = w.visual.length ∧
    (∀ tm ∈ (runTimers t fuel w).timers, tm.eff.isMismatch = false) := by
  induction fuel generalizing w with
  | zero => exact ⟨rfl, rfl, h⟩
  | succ fuel ih =>
    unfold runTimers
    rcases hdue : removeEarliestDue t w.timers with _ | ⟨tm, rest⟩
    · exact ⟨rfl, rfl, h⟩
    · obtain ⟨hfire, hperm⟩ := removeEarliestDue_perm t w.timers tm rest hdue
      have htm_mem : tm ∈ w.timers := hperm.symm.subset (List.mem_cons_self tm rest)
      have hrest_sub : ∀ x ∈ rest, x ∈ w.timers :=
        fun x hx => hperm.symm.subset (List.mem_cons_of_mem tm hx)
      have hcos : tm.eff.isMismatch = false := h tm htm_mem
      set w1 : World := { w with timers := rest } with hw1
      have hnext : ∀ x ∈ (applyTimer tm w1).timers, x.eff.isMismatch = false := by
        intro x hx
        rcases applyTimer_timers_mem tm w1 x hx with hin | ⟨idxs, mood, hcf⟩
        · exact h x (hrest_sub x hin)
        · rw [hcf]; rfl
      obtain ⟨e1, e2, e3⟩ := ih (applyTimer tm w1) hnext
      exact ⟨e1.trans (applyTimer_game_cosmetic tm w1 hcos),
        e2.trans (applyTimer_visual_length tm w1), e3⟩

theorem advance_cosmeticQueue (t : Nat) (w : World)
    (h : ∀ tm ∈ w.timers, tm.eff.isMismatch = false) :
    (advance t w).game = w.game ∧
    (advance t w).visual.length = w.visual.length ∧
    (∀ tm ∈ (advance t w).timers, tm.eff.isMismatch = false) :=
  runTimers_cosmeticQueue t _ w h

/-- The unmatched positions of the deck, with their symbols, in deck order
(what `pickNextPair` iterates over). -/
def unmatchedEnum (g : GameState) : List (Nat × String) :=
  g.deck.enum.filter (fun p => decide (p.1 ∉ g.matched))

/-- Every symbol has either 0 or 2 unmatched occurrences — the invariant of
a paired deck whose matched set grows only by true pairs. -/
def pairBalanced (g : GameState) : Prop :=
  ∀ s, ((unmatchedEnum g).filter (fun p => decide (p.2 = s))).length = 0 ∨
       ((unmatchedEnum g).filter (fun p => decide (p.2 = s))).length = 2

theorem addToBuckets_keys (bs : List (String × List Nat)) (s : String) (i : Nat) :
    (addToBuckets bs s i).map Prod.fst =
      if s ∈ bs.map Prod.fst then bs.map Prod.fst else bs.map Prod.fst ++ [s] := by
  induction bs with
  | nil => simp [addToBuckets]
  | cons q rest ih =>
    rcases q with ⟨k, g⟩
    by_cases hks : k = s
    · subst hks
      simp [addToBuckets]
    · by_cases hmem : s ∈ rest.map Prod.fst <;>
        simp [addToBuckets, hks, Ne.symm hks, hmem, ih]

theorem addToBuckets_not_mem (bs : List (String × List Nat)) (s : String) (i : Nat)
    (h : s ∉ bs.map Prod.fst) : addToBuckets bs s i = bs ++ [(s, [i])] := by
  induction bs with
  | nil => rfl
  | cons q rest ih =>
    rcases q with ⟨k, g⟩
    simp only [List.map_cons, List.mem_cons] at h
    push_neg at h
    simp [addToBuckets, Ne.symm h.1, ih h.2]

theorem addToBuckets_mem (bs : List (String × List Nat)) (s : String) (i : Nat)
    (hnd : (bs.map Prod.fst).Nodup) (h : s ∈ bs.map Prod.fst) :
    addToBuckets bs s i =
      bs.map (fun q => if q.1 = s then (q.1, q.2 ++ [i]) else q) := by
  induction bs with
  | nil => simp at h
  | cons q rest ih =>
    rcases q with ⟨k, g⟩
    simp only [List.map_cons, List.nodup_cons] at hnd
    by_cases hks : k = s
    · subst hks
      have hrest : ∀ q2 ∈ rest, (fun q2 : String × List Nat =>
          if q2.1 = k then (q2.1, q2.2 ++ [i]) else q2) q2 = q2 := by
        intro q2 hq2
        have : q2.1 ≠ k := by
          intro hc
          exact hnd.1 (hc ▸ List.mem_map_of_mem Prod.fst hq2)
        simp [this]
      simp only [addToBuckets, if_pos rfl, List.map_cons]
      rw [List.map_congr_left hrest, List.map_id']
      simp
    · simp only [List.map_cons, List.mem_cons] at h
      rcases h with h | h
      · exact absurd h.symm hks
      · simp [addToBuckets, hks, ih hnd.2 h]

/-- Fold invariant for `buildBuckets`: keys are distinct, each bucket's
group is exactly the processed entries with that symbol (in order), and
every processed symbol owns a bucket. -/
def BucketsInv (ps : List (Nat × String)) (bs : List (String × List Nat)) : Prop :=
  (bs.map Prod.fst).Nodup ∧
  (∀ q ∈ bs, q.2 = (ps.filter (fun p => decide (p.2 = q.1))).map Prod.fst) ∧
  (∀ p ∈ ps, p.2 ∈ bs.map Prod.fst)

theorem bucketsInv_step (ps : List (Nat × String)) (bs : List (String × List Nat))
    (p : Nat × String) (h : BucketsInv ps bs) :
    BucketsInv (ps ++ [p]) (addToBuckets bs p.2 p.1) := by
  obtain ⟨hnd, hchar, hcomp⟩ := h
  by_cases hmem : p.2 ∈ bs.map Prod.fst
  · rw [addToBuckets_mem bs p.2 p.1 hnd hmem]
    refine ⟨?_, ?_, ?_⟩
    · have : (bs.map (fun q => if q.1 = p.2 then (q.1, q.2 ++ [p.1]) else q)).map Prod.fst
          = bs.map Prod.fst := by
        rw [List.map_map]
        apply List.map_congr_left
        intro q hq
        by_cases hq1 : q.1 = p.2 <;> simp [hq1]
      rw [this]; exact hnd
    · intro q2 hq2
      obtain ⟨q, hq, hqe⟩ := List.mem_map.mp hq2
      by_cases hq1 : q.1 = p.2
      · rw [if_pos hq1] at hqe
        subst hqe
        dsimp only
        simp only [List.filter_append, List.map_append]
        rw [← hchar q hq]
        have hd : decide (p.2 = q.1) = true := decide_eq_true hq1.symm
        simp [List.filter, hd]
      · rw [if_neg hq1] at hqe
        subst hqe
        simp only [List.filter_append, List.map_append]
        rw [← hchar q hq]
        have hnilf : List.filter (fun p2 => decide (p2.2 = q.1)) [p] = [] := by
          have hd : decide (p.2 = q.1) = false := decide_eq_false (fun hc => hq1 hc.symm)
          simp [List.filter, hd]
        rw [hnilf]
        simp
    · intro p2 hp2
      have hkeys : (bs.map (fun q => if q.1 = p.2 then (q.1, q.2 ++ [p.1]) else q)).map
          Prod.fst = bs.map Prod.fst := by
        rw [List.map_map]
        apply List.map_congr_left
        intro q hq
        by_cases hq1 : q.1 = p.2 <;> simp [hq1]
      rw [hkeys]
      rcases List.mem_append.mp hp2 with hin | hin
      · exact hcomp p2 hin
      · rcases List.mem_singleton.mp hin with rfl
        exact hmem
  · rw [addToBuckets_not_mem bs p.2 p.1 hmem]
    refine ⟨?_, ?_, ?_⟩
    · rw [List.map_append]
      simp only [List.map_cons, List.map_nil]
      rw [List.nodup_append]
      exact ⟨hnd, List.nodup_singleton _, by
        intro x hx
        simp only [List.mem_singleton]
        intro hc
        exact hmem (hc ▸ hx)⟩
    · intro q hq
      rcases List.mem_append.mp hq with hin | hin
      · have hq1 : q.1 ≠ p.2 := by
          intro hc
          exact hmem (hc ▸ List.mem_map_of_mem Prod.fst hin)
        rw [hchar q hin]
        simp only [List.filter_append, List.map_append]
        have : List.filter (fun p2 => decide (p2.2 = q.1)) [p] = [] := by
          have hd : decide (p.2 = q.1) = false := decide_eq_false (fun hc => hq1 hc.symm)
          simp [List.filter, hd]
        rw [this]
        simp
      · rcases List.mem_singleton.mp hin with rfl
        simp only [List.filter_append, List.map_append]
        have h1 : ps.filter (fun p2 => decide (p2.2 = p.2)) = [] := by
          rw [List.filter_eq_nil_iff]
          intro x hx
          simp only [decide_eq_true_eq]
          intro hc
          exact hmem (hc ▸ hcomp x hx)
        have h2 : (List.filter (fun p2 => decide (p2.2 = p.2)) [p]).map Prod.fst
            = [p.1] := by
          simp [List.filter]
        rw [h1, h2]
        simp
    · intro p2 hp2
      rw [List.map_append]
      rcases List.mem_append.mp hp2 with hin | hin
      · exact List.mem_append_left _ (hcomp p2 hin)
      · rcases List.mem_singleton.mp hin with rfl
        exact List.mem_append_right _ (by simp)

theorem bucketsInv_foldl (ps : List (Nat × String)) :
    BucketsInv ps (ps.foldl (fun bs p => addToBuckets bs p.2 p.1) []) := by
  induction ps using List.reverseRecOn with
  | nil => exact ⟨by simp, by simp, by simp⟩
  | append_singleton ps p ih =>
    rw [List.foldl_append]
    exact bucketsInv_step ps _ p ih

theorem pickNextPair_spec (g : GameState) (hbal : pairBalanced g)
    (hne : unmatchedEnum g ≠ []) :
    ∃ i j s, pickNextPair g = some (i, j) ∧ i ≠ j ∧
      g.deck[i]? = some s ∧ g.deck[j]? = some s ∧
      i ∉ g.matched ∧ j ∉ g.matched := by
  obtain ⟨hnd, hchar, hcomp⟩ := bucketsInv_foldl (unmatchedEnum g)
  have hBeq : buildBuckets g.deck g.matched =
      (unmatchedEnum g).foldl (fun bs p => addToBuckets bs p.2 p.1) [] := rfl
  rcases List.exists_mem_of_ne_nil _ hne with ⟨p0, hp0⟩
  have hk0 := hcomp p0 hp0
  obtain ⟨q, hq, hq1⟩ := List.mem_map.mp hk0
  have hqlen : q.2.length = 2 := by
    rw [hchar q hq, List.length_map]
    rcases hbal q.1 with h0 | h2
    · exfalso
      have hp0f : p0 ∈ (unmatchedEnum g).filter (fun p => decide (p.2 = q.1)) :=
        List.mem_filter.mpr ⟨hp0, by simp [hq1]⟩
      rw [List.length_eq_zero] at h0
      rw [h0] at hp0f
      exact absurd hp0f (List.not_mem_nil p0)
    · exact h2
  have hfs : ((buildBuckets g.deck g.matched).find?
      (fun b => decide (2 ≤ b.2.length))).isSome := by
    apply List.find?_isSome.mpr
    exact ⟨q, by rw [hBeq]; exact hq, by simp [hqlen]⟩
  obtain ⟨b, hb⟩ := Option.isSome_iff_exists.mp hfs
  have hbmem : b ∈ buildBuckets g.deck g.matched := List.mem_of_find?_eq_some hb
  have hbpred : 2 ≤ b.2.length := by simpa using List.find?_some hb
  have hbchar : b.2 =
      ((unmatchedEnum g).filter (fun p => decide (p.2 = b.1))).map Prod.fst :=
    hchar b (hBeq ▸ hbmem)
  have hblen : b.2.length = 2 := by
    rcases hbal b.1 with h0 | h2
    · exfalso
      rw [hbchar, List.length_map] at hbpred
      omega
    · rw [hbchar, List.length_map]; exact h2
  obtain ⟨i, j, hij⟩ := List.length_eq_two.mp hblen
  have hextract : ∀ x ∈ b.2, g.deck[x]? = some b.1 ∧ x ∉ g.matched := by
    intro x hx
    rw [hbchar] at hx
    obtain ⟨px, hpx, hpxe⟩ := List.mem_map.mp hx
    have h1 := List.mem_filter.mp hpx
    have h2 := List.mem_filter.mp h1.1
    have h3 : g.deck[px.1]? = some px.2 := List.mem_enum_iff_getElem?.mp h2.1
    have h4 : px.2 = b.1 := of_decide_eq_true h1.2
    have h5 : px.1 ∉ g.matched := of_decide_eq_true h2.2
    rw [hpxe] at h3 h5
    rw [h4] at h3
    exact ⟨h3, h5⟩
  have hnd2 : (i :: j :: []).Nodup := by
    rw [← hij]
    rw [hbchar]
    have hsub : (((unmatchedEnum g).filter (fun p => decide (p.2 = b.1))).map
        Prod.fst).Sublist (g.deck.enum.map Prod.fst) :=
      ((List.filter_sublist _).trans (List.filter_sublist _)).map Prod.fst
    exact hsub.nodup (List.nodup_enum_map_fst _)
  have hij_ne : i ≠ j := by
    simp only [List.nodup_cons, List.mem_singleton] at hnd2
    exact hnd2.1
  have hpick : pickNextPair g = some (i, j) := by
    unfold pickNextPair
    rw [hb]
    rcases b with ⟨s0, grp⟩
    simp only at hij
    rw [hij]
  refine ⟨i, j, b.1, hpick, hij_ne, ?_, ?_, ?_, ?_⟩
  · exact (hextract i (by rw [hij]; simp)).1
  · exact (hextract j (by rw [hij]; simp)).1
  · exact (hextract i (by rw [hij]; simp)).2
  · exact (hextract j (by rw [hij]; simp)).2

theorem two_mem_length_two {α : Type} (l : List α) (x y : α)
    (hl : l.length = 2) (hx : x ∈ l) (hy : y ∈ l) (hxy : x ≠ y) (z : α) (hz : z ∈ l) :
    z = x ∨ z = y := by
  obtain ⟨a, b, rfl⟩ := List.length_eq_two.mp hl
  simp only [List.mem_cons, List.not_mem_nil, or_false] at hx hy hz
  rcases hx with rfl | rfl <;> rcases hy with rfl | rfl <;> rcases hz with rfl | rfl <;>
    first | exact Or.inl rfl | exact Or.inr rfl | exact absurd rfl hxy

theorem pairBalanced_congr (g g2 : GameState) (hd : g2.deck = g.deck)
    (hm : g2.matched = g.matched) (h : pairBalanced g) : pairBalanced g2 := by
  unfold pairBalanced unmatchedEnum at h ⊢
  rw [hd, hm]
  exact h

theorem pairBalanced_insert (g : GameState) (i j : Nat) (s : String)
    (hij : i ≠ j) (hdi : g.deck[i]? = some s) (hdj : g.deck[j]? = some s)
    (him : i ∉ g.matched) (hjm : j ∉ g.matched) (hbal : pairBalanced g) :
    pairBalanced { g with matched := g.matched ++ [i, j] } := by
  have hL2 : unmatchedEnum { g with matched := g.matched ++ [i, j] } =
      (unmatchedEnum g).filter (fun p => decide (p.1 ≠ i ∧ p.1 ≠ j)) := by
    unfold unmatchedEnum
    rw [List.filter_filter]
    apply List.filter_congr
    intro p _
    by_cases h1 : p.1 ∈ g.matched <;> by_cases h2 : p.1 = i <;> by_cases h3 : p.1 = j <;>
      simp [h1, h2, h3, List.mem_append]
  have hmemL : ∀ x : Nat, ∀ s2 : String, x ∉ g.matched → g.deck[x]? = some s2 →
      (x, s2) ∈ unmatchedEnum g := by
    intro x s2 hxm hxd
    exact List.mem_filter.mpr ⟨List.mem_enum_iff_getElem?.mpr hxd, by simp [hxm]⟩
  have hsndL : ∀ p ∈ unmatchedEnum g, g.deck[p.1]? = some p.2 := by
    intro p hp
    exact List.mem_enum_iff_getElem?.mp (List.mem_filter.mp hp).1
  have hcomm : ∀ s2 : String,
      ((unmatchedEnum g).filter (fun p => decide (p.1 ≠ i ∧ p.1 ≠ j))).filter
        (fun p => decide (p.2 = s2)) =
      ((unmatchedEnum g).filter (fun p => decide (p.2 = s2))).filter
        (fun p => decide (p.1 ≠ i ∧ p.1 ≠ j)) := by
    intro s2
    rw [List.filter_filter, List.filter_filter]
    apply List.filter_congr
    intro p _
    rw [Bool.and_comm]
  intro s2
  rw [hL2, hcomm s2]
  by_cases hs2 : s2 = s
  · subst hs2
    left
    have hF2 : ((unmatchedEnum g).filter (fun p => decide (p.2 = s2))).length = 2 := by
      rcases hbal s2 with h0 | h2
      · exfalso
        have := hmemL i s2 him hdi
        have hmem2 : (i, s2) ∈ (unmatchedEnum g).filter (fun p => decide (p.2 = s2)) :=
          List.mem_filter.mpr ⟨this, by simp⟩
        rw [List.length_eq_zero] at h0
        rw [h0] at hmem2
        exact absurd hmem2 (List.not_mem_nil _)
      · exact h2
    have hmi : ((i, s2) : Nat × String) ∈
        (unmatchedEnum g).filter (fun p => decide (p.2 = s2)) :=
      List.mem_filter.mpr ⟨hmemL i s2 him hdi, by simp⟩
    have hmj : ((j, s2) : Nat × String) ∈
        (unmatchedEnum g).filter (fun p => decide (p.2 = s2)) :=
      List.mem_filter.mpr ⟨hmemL j s2 hjm hdj, by simp⟩
    have hnil : ((unmatchedEnum g).filter (fun p => decide (p.2 = s2))).filter
        (fun p => decide (p.1 ≠ i ∧ p.1 ≠ j)) = [] := by
      rw [List.filter_eq_nil_iff]
      intro z hz
      have := two_mem_length_two _ (i, s2) (j, s2) hF2 hmi hmj
        (by intro hc; exact hij (congrArg Prod.fst hc)) z hz
      rcases this with rfl | rfl <;> simp
    rw [hnil]
    rfl
  · rcases hbal s2 with h0 | h2
    · left
      rw [List.length_eq_zero] at h0
      rw [h0]
      rfl
    · right
      have hkeep : ((unmatchedEnum g).filter (fun p => decide (p.2 = s2))).filter
          (fun p => decide (p.1 ≠ i ∧ p.1 ≠ j)) =
          (unmatchedEnum g).filter (fun p => decide (p.2 = s2)) := by
        rw [List.filter_eq_self]
        intro z hz
        obtain ⟨hzl, hzs⟩ := List.mem_filter.mp hz
        have hzs2 : z.2 = s2 := of_decide_eq_true hzs
        simp only [decide_eq_true_eq]
        constructor
        · intro hc
          have := hsndL z hzl
          rw [hc, hdi] at this
          have : z.2 = s := by injection this.symm
          exact hs2 (hzs2 ▸ this ▸ rfl)
        · intro hc
          have := hsndL z hzl
          rw [hc, hdj] at this
          have : z.2 = s := by injection this.symm
          exact hs2 (hzs2 ▸ this ▸ rfl)
      rw [hkeep]
      exact h2

/-- The loop invariant of the auto-solver: an unlocked, turn-free world
whose deck is the fixed `d`, with victory tracking completion, the
unmatched occurrences of every symbol paired up, a board of `d.length`
cards, and only cosmetic timers pending. -/
def solverInv (d : List String) (w : World) : Prop :=
  w.game.deck = d ∧
  w.game.flipped = [] ∧
  w.game.locked = false ∧
  (w.game.victory = true ↔ w.game.matched.length = d.length) ∧
  pairBalanced w.game ∧
  w.visual.length = d.length ∧
  (∀ tm ∈ w.timers, tm.eff.isMismatch = false)

theorem solverLoop_completes (d : List String)
    (hblank : ∀ s ∈ d, s.isEmpty = false) (k : Nat) :
    ∀ (fuel guard now : Nat) (w : World),
      solverInv d w →
      w.game.matched.length + 2 * k = d.length →
      k < fuel → guard + k ≤ 200 →
      (solverLoop fuel guard now w).game.victory = true ∧
      (solverLoop fuel guard now w).game.moves = w.game.moves + k := by
  induction k with
  | zero =>
    intro fuel guard now w hinv hk hfuel hguard
    obtain ⟨hdeck, hfl, hlk, hiff, hbal, hvl, hcq⟩ := hinv
    have hvic : w.game.victory = true := hiff.mpr (by omega)
    rcases fuel with _ | fuel
    · omega
    · unfold solverLoop
      rw [hvic, if_pos rfl]
      exact ⟨hvic, by omega⟩
  | succ k ih =>
    intro fuel guard now w hinv hk hfuel hguard
    obtain ⟨hdeck, hfl, hlk, hiff, hbal, hvl, hcq⟩ := hinv
    have hvic : w.game.victory = false := by
      rcases hv : w.game.victory
      · rfl
      · have := hiff.mp hv; omega
    rcases fuel with _ | fuel
    · omega
    have hneL : unmatchedEnum w.game ≠ [] := by
      intro hempty
      have hsub : ∀ x ∈ List.range d.length, x ∈ w.game.matched := by
        intro x hx
        by_contra hxm
        have hxlt := List.mem_range.mp hx
        obtain ⟨s2, hs2⟩ : ∃ s2, d[x]? = some s2 :=
          ⟨d.get ⟨x, hxlt⟩, List.getElem?_eq_getElem hxlt⟩
        have hxd : w.game.deck[x]? = some s2 := by
          rw [hdeck]; exact hs2
        have hmemx : ((x, s2) : Nat × String) ∈ unmatchedEnum w.game :=
          List.mem_filter.mpr ⟨List.mem_enum_iff_getElem?.mpr hxd, by simp [hxm]⟩
        rw [hempty] at hmemx
        exact absurd hmemx (List.not_mem_nil _)
      have hle := ((List.nodup_range d.length).subperm hsub).length_le
      rw [List.length_range] at hle
      omega
    obtain ⟨i, j, s, hpick, hijne, hdi, hdj, him, hjm⟩ := pickNextPair_spec w.game hbal hneL
    have hilt : i < d.length := by
      have := (List.getElem?_eq_some.mp (hdeck ▸ hdi)).1
      exact this
    have hjlt : j < d.length := by
      have := (List.getElem?_eq_some.mp (hdeck ▸ hdj)).1
      exact this
    have hs_ne : s.isEmpty = false := by
      apply hblank s
      rw [← hdeck]
      exact List.getElem?_mem hdi
    -- first click
    have hw1 := revealW_first now i w hlk hvic him hfl
    have h1fl : (revealW now i w).game.flipped = [i] := by rw [hw1]
    have h1lk : (revealW now i w).game.locked = false := by rw [hw1]; exact hlk
    have h1vc : (revealW now i w).game.victory = false := by rw [hw1]; exact hvic
    have h1ma : (revealW now i w).game.matched = w.game.matched := by rw [hw1]
    have h1dk : (revealW now i w).game.deck = w.game.deck := by rw [hw1]
    have h1mv : (revealW now i w).game.moves = w.game.moves := by rw [hw1]
    have h1vl : (revealW now i w).visual.length = w.visual.length := by
      rw [hw1]; simp [List.length_set]
    have h1tq : (revealW now i w).timers = w.timers := by rw [hw1]
    have h1cq : ∀ tm ∈ (revealW now i w).timers, tm.eff.isMismatch = false := by
      rw [h1tq]; exact hcq
    -- waiting for the flip animation: cosmetic timers may fire
    obtain ⟨h2g, h2vl, h2cq⟩ :=
      advance_cosmeticQueue (now + FLIP_DURATION + 120) (revealW now i w) h1cq
    -- second click resolves the match
    have hw3 := revealW_second_match (now + FLIP_DURATION + 120) j i s
      (advance (now + FLIP_DURATION + 120) (revealW now i w))
      (by rw [h2g]; exact h1lk) (by rw [h2g]; exact h1vc)
      (by rw [h2g, h1ma]; exact hjm) (by rw [h2g]; exact h1fl)
      (Ne.symm hijne) (by rw [h2g, h1dk]; exact hdi) (by rw [h2g, h1dk]; exact hdj) hs_ne
    have h3ma : (revealW (now + FLIP_DURATION + 120) j
        (advance (now + FLIP_DURATION + 120) (revealW now i w))).game.matched =
        w.game.matched ++ [i, j] := by
      rw [hw3]
      simp only [checkVictory_matched]
      rw [h2g, h1ma]
    have h3fl : (revealW (now + FLIP_DURATION + 120) j
        (advance (now + FLIP_DURATION + 120) (revealW now i w))).game.flipped = [] := by
      rw [hw3]
      simp only [checkVictory_flipped]
    have h3lk : (revealW (now + FLIP_DURATION + 120) j
        (advance (now + FLIP_DURATION + 120) (revealW now i w))).game.locked = false := by
      rw [hw3]
      simp only [checkVictory_locked]
      rw [h2g]; exact h1lk
    have h3dk : (revealW (now + FLIP_DURATION + 120) j
        (advance (now + FLIP_DURATION + 120) (revealW now i w))).game.deck =
        w.game.deck := by
      rw [hw3]
      simp only [checkVictory_deck]
      rw [h2g]; exact h1dk
    have h3mv : (revealW (now + FLIP_DURATION + 120) j
        (advance (now + FLIP_DURATION + 120) (revealW now i w))).game.moves =
        w.game.moves + 1 := by
      rw [hw3]
      simp only [checkVictory_moves]
      rw [h2g, h1mv]
    have h3vc : (revealW (now + FLIP_DURATION + 120) j
        (advance (now + FLIP_DURATION + 120) (revealW now i w))).game.victory =
        decide ((w.game.matched ++ [i, j]).length = w.game.deck.length) := by
      rw [hw3, checkVictory_victory]
      dsimp only
      rw [h2g, h1vc, h1ma, h1dk]
      simp
    have h3vl : (revealW (now + FLIP_DURATION + 120) j
        (advance (now + FLIP_DURATION + 120) (revealW now i w))).visual.length =
        w.visual.length := by
      rw [hw3]
      simp only [List.length_set]
      rw [h2vl, h1vl]
    have h3cq : ∀ tm ∈ (revealW (now + FLIP_DURATION + 120) j
        (advance (now + FLIP_DURATION + 120) (revealW now i w))).timers,
        tm.eff.isMismatch = false := by
      rw [hw3]
      intro tm htm
      rcases List.mem_append.mp htm with hin | hin
      · exact h2cq tm hin
      · rcases List.mem_cons.mp hin with rfl | hin2
        · rfl
        · rcases List.mem_singleton.mp hin2 with rfl
          rfl
    -- waiting out the post-match pacing window
    obtain ⟨h4g, h4vl, h4cq⟩ :=
      advance_cosmeticQueue (now + FLIP_DURATION + 120 + WAIT_AFTER_MATCH) _ h3cq
    -- the new invariant
    have hinv4 : solverInv d (advance (now + FLIP_DURATION + 120 + WAIT_AFTER_MATCH)
        (revealW (now + FLIP_DURATION + 120) j
          (advance (now + FLIP_DURATION + 120) (revealW now i w)))) := by
      refine ⟨?_, ?_, ?_, ?_, ?_, ?_, h4cq⟩
      · rw [h4g, h3dk, hdeck]
      · rw [h4g, h3fl]
      · rw [h4g, h3lk]
      · rw [h4g, h3vc, h3ma, ← hdeck]
        simp
      · exact pairBalanced_congr
          { w.game with matched := w.game.matched ++ [i, j] } _
          (by rw [h4g, h3dk]) (by rw [h4g, h3ma])
          (pairBalanced_insert w.game i j s hijne hdi hdj him hjm hbal)
      · rw [h4vl, h3vl, hvl]
    have hk4 : (advance (now + FLIP_DURATION + 120 + WAIT_AFTER_MATCH)
        (revealW (now + FLIP_DURATION + 120) j
          (advance (now + FLIP_DURATION + 120) (revealW now i w)))).game.matched.length
        + 2 * k = d.length := by
      rw [h4g, h3ma]
      simp only [List.length_append, List.length_cons, List.length_nil]
      omega
    have hmv4 : (advance (now + FLIP_DURATION + 120 + WAIT_AFTER_MATCH)
        (revealW (now + FLIP_DURATION + 120) j
          (advance (now + FLIP_DURATION + 120) (revealW now i w)))).game.moves =
        w.game.moves + 1 := by
      rw [h4g, h3mv]
    have hrec := ih fuel (guard + 1) (now + FLIP_DURATION + 120 + WAIT_AFTER_MATCH)
      _ hinv4 hk4 (by omega) (by omega)
    -- now reduce the loop body
    show (solverLoop (fuel + 1) guard now w).game.victory = true ∧
      (solverLoop (fuel + 1) guard now w).game.moves = w.game.moves + (k + 1)
    unfold solverLoop
    rw [hvic, hlk]
    simp only [Bool.false_eq_true, if_false]
    rw [if_neg (by omega : ¬ 200 ≤ guard)]
    rw [hpick]
    dsimp only
    have hvisc : (decide (i < w.visual.length) && decide (j < w.visual.length)) = true := by
      rw [hvl]
      simp [hilt, hjlt]
    rw [if_pos hvisc]
    refine ⟨hrec.1, ?_⟩
    rw [hrec.2, hmv4]
    omega

theorem enumFrom_filter_snd_length (s : String) :
    ∀ (n : Nat) (d : List String),
      ((List.enumFrom n d).filter (fun p => decide (p.2 = s))).length = d.count s := by
  intro n d
  induction d generalizing n with
  | nil => rfl
  | cons x t ih =>
    by_cases hxs : x = s
    · simp [List.enumFrom_cons, List.filter_cons, hxs, ih, List.count_cons]
    · simp [List.enumFrom_cons, List.filter_cons, hxs, ih, List.count_cons, Ne.symm hxs]

/-- Claim C9: running the secret auto-solver on the freshly initialized
`chill` session (6 pairs, 12 cards, any permutation-valued shuffle)
terminates with `victory = true` and exactly `moves = 6`: it only ever
submits true pairs, completing one turn per pair. -/
theorem autoSolver_chill_completes (shuf : List String → List String)
    (hperm : ∀ l, (shuf l).Perm l) (t0 : Nat) :
    (secretSolvePuzzle t0 (initialWorld shuf)).game.victory = true ∧
    (secretSolvePuzzle t0 (initialWorld shuf)).game.moves = 6 := by
  have hp : (difficulties .chill).pairs ≤ (difficulties .chill).pool.length := by decide
  have hnd : (difficulties .chill).pool.Nodup := by decide
  have hlen12 : (buildDeck shuf (difficulties .chill)).length = 12 := by
    rw [buildDeck_length shuf hperm (difficulties .chill) hp]
    rfl
  have hblank : ∀ s ∈ buildDeck shuf (difficulties .chill), s.isEmpty = false := by
    intro s hs
    have hpool := buildDeck_mem_pool shuf hperm (difficulties .chill) s hs
    have hall : ∀ x ∈ (difficulties .chill).pool, x.isEmpty = false := by decide
    exact hall s hpool
  have hdeck0 : (initialWorld shuf).game.deck = buildDeck shuf (difficulties .chill) := rfl
  have hinv : solverInv (buildDeck shuf (difficulties .chill)) (initialWorld shuf) := by
    refine ⟨hdeck0, rfl, rfl, ?_, ?_, ?_, ?_⟩
    · rw [show (initialWorld shuf).game.victory = false from rfl,
        show (initialWorld shuf).game.matched = ([] : List Nat) from rfl]
      simp only [List.length_nil, Bool.false_eq_true, false_iff]
      rw [hlen12]
      omega
    · intro s
      have hL : unmatchedEnum (initialWorld shuf).game =
          (buildDeck shuf (difficulties .chill)).enum := by
        unfold unmatchedEnum
        rw [hdeck0, show (initialWorld shuf).game.matched = ([] : List Nat) from rfl]
        apply List.filter_eq_self.mpr
        intro p _
        simp
      rw [hL]
      have hcount : ((buildDeck shuf (difficulties .chill)).enum.filter
          (fun p => decide (p.2 = s))).length =
          (buildDeck shuf (difficulties .chill)).count s :=
        enumFrom_filter_snd_length s 0 _
      rw [hcount]
      by_cases hmem : s ∈ buildDeck shuf (difficulties .chill)
      · right
        exact buildDeck_count_two shuf hperm (difficulties .chill) hnd s hmem
      · left
        exact List.count_eq_zero.mpr hmem
    · show (List.replicate (buildDeck shuf (difficulties defaultDifficulty)).length
        CardState.idle).length = _
      rw [List.length_replicate]
      rfl
    · intro tm htm
      exact absurd htm (List.not_mem_nil tm)
  have hrun := solverLoop_completes (buildDeck shuf (difficulties .chill)) hblank 6
    300 0 t0 (initialWorld shuf) hinv
    (by rw [show (initialWorld shuf).game.matched = ([] : List Nat) from rfl, hlen12]; rfl)
    (by omega) (by omega)
  have hstep : secretSolvePuzzle t0 (initialWorld shuf) =
      solverLoop 300 0 t0 (initialWorld shuf) := by
    unfold secretSolvePuzzle
    rw [show (initialWorld shuf).game.victory = false from rfl]
    simp
  rw [hstep]
  exact ⟨hrun.1,
    by rw [hrun.2, show (initialWorld shuf).game.moves = 0 from rfl]⟩

/-- Witness for C9: the identity shuffle, solver started at t = 0. -/
theorem autoSolver_chill_completes_witness :
    (secretSolvePuzzle 0 (initialWorld id)).game.victory = true ∧
    (secretSolvePuzzle 0 (initialWorld id)).game.moves = 6 :=
  autoSolver_chill_completes id (fun l => List.Perm.refl l) 0

end Vibelympics
